import Mathlib

/-!
Verification development for the L5K-Tuner core: a shallow embedding of the
string helpers (strings.py, utils.py), the domain model (models.py), the
parser state machine and semantic resolver (l5k_parser.py) and the whitelist
exporter (exporter.py), together with theorems settling the specification
claims.  Strings are embedded as `List Char`; Python dict / OrderedDict
collections are embedded as insertion-ordered association lists.
-/

/-- Embedded Python string: a list of characters. -/
abbrev Str := List Char

/-- Conversion from a Lean string literal to the embedded string type. -/
def str (s : String) : Str := s.toList

/-- The double-quote character. -/
def dquote : Char := Char.ofNat 34

/-- The single-quote character. -/
def squote : Char := Char.ofNat 39

/-- The backslash character. -/
def bslash : Char := Char.ofNat 92

/-- The newline character. -/
def nlChar : Char := Char.ofNat 10

/-- The carriage-return character. -/
def crChar : Char := Char.ofNat 13

/-- The horizontal-tab character. -/
def tabChar : Char := Char.ofNat 9

/-- Python `str.isspace` members relevant to `\s` in the used regexes. -/
def isPyWS (c : Char) : Bool :=
  c == ' ' || c == tabChar || c == nlChar || c == crChar ||
  c == Char.ofNat 11 || c == Char.ofNat 12

/-- Strip leading whitespace (Python `lstrip()`). -/
def lstripWS : Str → Str
  | [] => []
  | c :: t => if isPyWS c then lstripWS t else c :: t

/-- Strip trailing whitespace (Python `rstrip()`). -/
def rstripWS (s : Str) : Str := (lstripWS s.reverse).reverse

/-- Strip both ends (Python `strip()`). -/
def stripWS (s : Str) : Str := rstripWS (lstripWS s)

/-- Strip a single given character from the left end repeatedly. -/
def lstripChar (c : Char) : Str → Str
  | [] => []
  | d :: t => if d == c then lstripChar c t else d :: t

/-- Strip a given character from the right end repeatedly (Python `rstrip("\n")`). -/
def rstripChar (c : Char) (s : Str) : Str := (lstripChar c s.reverse).reverse

/-- Strip leading characters from a two-character set (Python `rstrip("\r\n")`, left part). -/
def lstripCRLF : Str → Str
  | [] => []
  | d :: t => if d == nlChar || d == crChar then lstripCRLF t else d :: t

/-- Python `rstrip("\r\n")`. -/
def rstripCRLF (s : Str) : Str := (lstripCRLF s.reverse).reverse

/-- Strip '\n' characters from both ends (Python `strip("\n")`). -/
def stripNL (s : Str) : Str := rstripChar nlChar (lstripChar nlChar s)

/-- Substring containment (Python `in` on strings). -/
def containsSubstr : Str → Str → Bool
  | [], pat => pat.isEmpty
  | s@(_ :: t), pat => pat.isPrefixOf s || containsSubstr t pat

/-- Suffix test (Python `str.endswith`). -/
def endsWith (s suffixPat : Str) : Bool := suffixPat.isSuffixOf s

/-- Prefix test (Python `str.startswith`). -/
def startsWith (s pat : Str) : Bool := pat.isPrefixOf s

/-- Python `str.splitlines` (the source files only contain `\n`, `\r\n`, `\r`
line boundaries): no trailing empty line after a final newline. -/
def splitlinesPy : Str → List Str
  | [] => []
  | s => splitlinesGo [] s
where
  splitlinesGo (acc : Str) : Str → List Str
    | [] => [acc.reverse]
    | c :: t =>
      if c == nlChar then
        acc.reverse :: (match t with | [] => [] | t' => splitlinesGo [] t')
      else if c == crChar then
        match t with
        | [] => [acc.reverse]
        | d :: t' =>
          if d == nlChar then
            acc.reverse :: (match t' with | [] => [] | t'' => splitlinesGo [] t'')
          else acc.reverse :: splitlinesGo [] (d :: t')
      else splitlinesGo (c :: acc) t

/-- Python `str.split('\n')` (keeps empty fields). -/
def splitNL : Str → List Str
  | [] => [[]]
  | c :: t =>
    let rest := splitNL t
    if c == nlChar then [] :: rest
    else match rest with
      | [] => [[c]]
      | r :: rs => (c :: r) :: rs

/-- Join with '\n' (Python `"\n".join`). -/
def joinNL (ls : List Str) : Str := (ls.intersperse [nlChar]).flatten

/-- Join with a single space (Python `" ".join`). -/
def joinSpace (ls : List Str) : Str := (ls.intersperse [' ']).flatten

/-- String repetition (Python `s * n`). -/
def repStr (s : Str) : Nat → Str
  | 0 => []
  | n + 1 => s ++ repStr s n

/-! ## Insertion-ordered maps (Python `dict` / `OrderedDict` semantics) -/

/-- Insertion-ordered association map keyed by strings. -/
abbrev Dct (α : Type) := List (Str × α)

/-- Python `d[k] = v`: replace in place if the key exists (keeping its
position), otherwise append at the end. -/
def dictInsert {α : Type} : Dct α → Str → α → Dct α
  | [], k, v => [(k, v)]
  | (k', v') :: rest, k, v =>
    if k' == k then (k', v) :: rest else (k', v') :: dictInsert rest k v

/-- Python `d.get(k)`. -/
def dictGet {α : Type} : Dct α → Str → Option α
  | [], _ => none
  | (k', v') :: rest, k => if k' == k then some v' else dictGet rest k

/-- Python `k in d`. -/
def dictContains {α : Type} (d : Dct α) (k : Str) : Bool :=
  (dictGet d k).isSome

/-- Iteration order of the keys. -/
def dictKeys {α : Type} (d : Dct α) : List Str := d.map (·.1)

/-- Mutation of the object stored at a key (Python attribute assignment
through a reference obtained from the dict). -/
def dictUpdate {α : Type} : Dct α → Str → (α → α) → Dct α
  | [], _, _ => []
  | (k', v') :: rest, k, f =>
    if k' == k then (k', f v') :: rest else (k', v') :: dictUpdate rest k f

/-! ## Quote/escape/depth scanner (strings.first_outside_parens and the
TagBuffer in l5k_parser.py share this per-character state update) -/

/-- Opening group characters. -/
def isOpenBr (c : Char) : Bool := c == '(' || c == '[' || c == Char.ofNat 123

/-- Closing group characters. -/
def isCloseBr (c : Char) : Bool := c == ')' || c == ']' || c == Char.ofNat 125

/-- Scanner state: nesting depth, single and double quote flags, `$`-escape flag. -/
structure ScanSt where
  depth : Nat
  in_sq : Bool
  in_dq : Bool
  esc : Bool
deriving DecidableEq, Repr

/-- One character of the scan, mirroring the branch cascade of
`first_outside_parens` (the guarded `depth -= 1` is Nat truncation here). -/
def scanChar (st : ScanSt) (c : Char) : ScanSt :=
  if st.in_sq then
    if st.esc then { st with esc := false }
    else if c == '$' then { st with esc := true }
    else if c == squote then { st with in_sq := false }
    else st
  else if st.in_dq then
    if st.esc then { st with esc := false }
    else if c == '$' then { st with esc := true }
    else if c == dquote then { st with in_dq := false }
    else st
  else if c == squote then { st with in_sq := true }
  else if c == dquote then { st with in_dq := true }
  else if isOpenBr c then { st with depth := st.depth + 1 }
  else if isCloseBr c then { st with depth := st.depth - 1 }
  else st

/-- State after scanning a character list. -/
def scanList (st : ScanSt) (cs : Str) : ScanSt := cs.foldl scanChar st

/-- The initial scanner state. -/
def scanInit : ScanSt := ⟨0, false, false, false⟩

/-- True when the match check of `first_outside_parens` is reachable at a
character: not inside a quote and the character is not a quote or bracket. -/
def scanPlain (st : ScanSt) (c : Char) : Bool :=
  !st.in_sq && !st.in_dq && !(c == squote) && !(c == dquote) &&
  !(isOpenBr c) && !(isCloseBr c)

/-- Worker for `first_outside_parens`: carries the running state and index. -/
def fopGo (target : Str) : ScanSt → Nat → Str → Option Nat
  | _, _, [] => none
  | st, i, c :: rest =>
    if scanPlain st c && st.depth == 0 && target.isPrefixOf (c :: rest) then
      some i
    else fopGo target (scanChar st c) (i + 1) rest

/-- strings.first_outside_parens: index of the first occurrence of `target`
outside (), [], {} and outside single- or double-quoted strings (`none`
stands for the source's minus one). -/
def first_outside_parens (s target : Str) : Option Nat :=
  fopGo target scanInit 0 s

/-! ## utils.paren_delta -/

/-- utils.paren_delta: net '(' minus ')' on a line, ignoring parentheses
inside double-quoted strings with backslash escapes. -/
def paren_delta (line : Str) : Int := go 0 false false line
where
  go (delta : Int) (in_str esc : Bool) : Str → Int
    | [] => delta
    | c :: t =>
      if in_str then
        if esc then go delta true false t
        else if c == bslash then go delta true true t
        else if c == dquote then go delta false false t
        else go delta true false t
      else
        if c == dquote then go delta true false t
        else if c == '(' then go (delta + 1) false false t
        else if c == ')' then go (delta - 1) false false t
        else go delta false false t

/-! ## strings.split_outer_attrs -/

/-- Index of the last occurrence of a character (Python `str.rfind`). -/
def rfindChar (c : Char) (s : Str) : Option Nat :=
  go 0 none s
where
  go (i : Nat) (best : Option Nat) : Str → Option Nat
    | [] => best
    | d :: t => go (i + 1) (if d == c then some i else best) t

/-- strings.split_outer_attrs: if `left` (after trimming past the last ')')
ends with a balanced top-level parenthesized group, return the text before
the group and the group's interior; else return `left` and "". -/
def split_outer_attrs (left : Str) : Str × Str :=
  let s0 := rstripWS left
  let s := match rfindChar ')' s0 with
    | some idx => s0.take (idx + 1)
    | none => s0
  if !(endsWith s (str ")")) then (left, [])
  else
    let (depth, start) := scanParens 0 0 (none : Option Nat) s
    match start with
    | some st =>
      if depth == 0 then (rstripWS (s.take st), (s.drop (st + 1)).dropLast)
      else (left, [])
    | none => (left, [])
where
  /-- Forward scan recording the last '(' seen at depth zero; depth is a
  Python int and may go negative. -/
  scanParens (i : Nat) (depth : Int) (start : Option Nat) : Str → Int × Option Nat
    | [] => (depth, start)
    | c :: t =>
      if c == '(' then
        scanParens (i + 1) (depth + 1) (if depth == 0 then some i else start) t
      else if c == ')' then scanParens (i + 1) (depth - 1) start t
      else scanParens (i + 1) depth start t

/-! ## strings.encode_l5k_string and the format's decoding convention -/

/-- Python `str.replace` specialized to a single-character needle. -/
def replace_char (c : Char) (r : Str) : Str → Str
  | [] => []
  | x :: t => (if x == c then r else [x]) ++ replace_char c r t

/-- strings.encode_l5k_string: escape `$` first, then quotes, then CR/LF. -/
def encode_l5k_string (s : Str) : Str :=
  let o1 := replace_char '$' (str "$$") s
  let o2 := replace_char dquote ['$', dquote] o1
  let o3 := replace_char squote ['$', squote] o2
  let o4 := replace_char crChar (str "$R") o3
  replace_char nlChar (str "$N") o4

/-- Modelled from the spec: the single-character decoding of a `$`-escape
(`$$`→`$`, `$"`→`"`, `$'`→`'`, `$R`→CR, `$N`→LF); other escaped characters
are passed through, matching "the escape absorbs the next character". -/
def decodeEsc (e : Char) : Char :=
  if e == '$' then '$'
  else if e == dquote then dquote
  else if e == squote then squote
  else if e == 'R' then crChar
  else if e == 'N' then nlChar
  else e

/-- Modelled from the spec: the decoder inverse to `encode_l5k_string` under
the format's `$`-escape convention (there is no decoder in the source; this
definition follows the convention stated in the spec's §4.1). -/
def decode_l5k_spec : Str → Str
  | [] => []
  | c :: t =>
    if c == '$' then
      match t with
      | [] => ['$']
      | e :: t' => decodeEsc e :: decode_l5k_spec t'
    else c :: decode_l5k_spec t

/-! ## Character-level matchers for the compiled regexes

Each Python regex used by the source is transcribed as a deterministic
matcher with explicit ordered-alternation backtracking (`btStar` implements
a greedy `cls*` that backtracks into its continuation, matching the regex
engine's behavior for these patterns). -/

/-- Word character of the used regexes' `\w` (ASCII, as in the inputs). -/
def isAlphaU (c : Char) : Bool :=
  ('A' ≤ c && c ≤ 'Z') || ('a' ≤ c && c ≤ 'z') || c == '_'

/-- The `\w` class. -/
def isWordChar (c : Char) : Bool := isAlphaU c || c.isDigit

/-- Greedy Kleene star over a character class with backtracking into the
continuation: longest consumption is tried first. -/
def btStar {α : Type} (p : Char → Bool) (cont : Str → Option α) : Str → Option α
  | [] => cont []
  | c :: t =>
    if p c then (btStar p cont t) <|> cont (c :: t)
    else cont (c :: t)

/-- Case-sensitive literal; returns the rest after the literal. -/
def lit : Str → Str → Option Str
  | [], s => some s
  | p :: pt, c :: ct => if p == c then lit pt ct else none
  | _ :: _, [] => none

/-- Case-insensitive literal (give the pattern in lower case). -/
def litCI : Str → Str → Option Str
  | [], s => some s
  | p :: pt, c :: ct => if p == c.toLower then litCI pt ct else none
  | _ :: _, [] => none

/-- Greedy `\s*` with no following constraint. -/
def dropWS : Str → Str
  | [] => []
  | c :: t => if isPyWS c then dropWS t else c :: t

/-! ### strings.RE_DESC and the DefaultData-stripping regexes -/

/-- Pattern `Description\s*:=\s*"([^"]*)"` (IGNORECASE, DOTALL) tried at one
position; returns the captured group. -/
def descMatchAt (s : Str) : Option Str := do
  let s1 ← litCI (str "description") s
  let s2 := dropWS s1
  let s3 ← lit (str ":=") s2
  let s4 := dropWS s3
  match s4 with
  | c :: t =>
    if c == dquote then
      let body := t.takeWhile (fun d => !(d == dquote))
      let rest := t.drop body.length
      match rest with
      | d :: _ => if d == dquote then some body else none
      | [] => none
    else none
  | [] => none

/-- strings.get_desc: leftmost RE_DESC search, captured group or "". -/
def get_desc : Str → Str
  | [] => []
  | s@(_ :: t) =>
    match descMatchAt s with
    | some g => g
    | none => get_desc t

/-- The regexes' VALUE alternation
`(\([^\)]*\)|"[^"]*"|[^,)]*)` with ordered backtracking into `cont`. -/
def mValueThen (cont : Str → Option Str) (s : Str) : Option Str :=
  (match s with
   | c :: t =>
     if c == '(' then
       btStar (fun d => !(d == ')'))
         (fun s' => match s' with
           | d :: t2 => if d == ')' then cont t2 else none
           | [] => none) t
     else none
   | [] => none)
  <|>
  (match s with
   | c :: t =>
     if c == dquote then
       btStar (fun d => !(d == dquote))
         (fun s' => match s' with
           | d :: t2 => if d == dquote then cont t2 else none
           | [] => none) t
     else none
   | [] => none)
  <|> btStar (fun d => !(d == ',') && !(d == ')')) cont s

/-- The common `DefaultData\s*:=\s*` head of the three patterns. -/
def mDDHead (cont : Str → Option Str) (s : Str) : Option Str :=
  (litCI (str "defaultdata") s).bind fun s1 =>
    btStar isPyWS (fun s2 =>
      (lit (str ":=") s2).bind fun s3 =>
        btStar isPyWS (fun s4 => mValueThen cont s4) s3) s1

/-- Zero-width lookahead `(?=,|\))`. -/
def lookCommaOrClose (s : Str) : Option Str :=
  match s with
  | c :: _ => if c == ',' || c == ')' then some s else none
  | [] => none

/-- Zero-width lookahead `(?=\))`. -/
def lookClose (s : Str) : Option Str :=
  match s with
  | c :: _ => if c == ')' then some s else none
  | [] => none

/-- RE_ATTR_DEFAULTDATA_LEADCOMMA:
`,\s*DefaultData\s*:=\s*VALUE\s*(?=,|\))`. -/
def m_dd_leadcomma (s : Str) : Option Str :=
  match s with
  | c :: t =>
    if c == ',' then
      btStar isPyWS (mDDHead (btStar isPyWS lookCommaOrClose)) t
    else none
  | [] => none

/-- RE_ATTR_DEFAULTDATA_TRAILCOMMA:
`DefaultData\s*:=\s*VALUE\s*,\s*`. -/
def m_dd_trailcomma (s : Str) : Option Str :=
  mDDHead (btStar isPyWS (fun s5 =>
    match s5 with
    | c :: t => if c == ',' then some (dropWS t) else none
    | [] => none)) s

/-- RE_ATTR_DEFAULTDATA_END:
`(?:,\s*)?DefaultData\s*:=\s*VALUE\s*(?=\))` (the optional leading comma is
tried first, as the regex engine does). -/
def m_dd_end (s : Str) : Option Str :=
  (match s with
   | c :: t =>
     if c == ',' then btStar isPyWS (mDDHead (btStar isPyWS lookClose)) t
     else none
   | [] => none)
  <|> mDDHead (btStar isPyWS lookClose) s

/-- Python `re.sub(pat, '', s)`: scan left to right, replacing each
non-overlapping match with the empty string (the fuel bounds the scan; every
pattern here consumes at least one character, so `s.length` suffices). -/
def subAll (pat : Str → Option Str) : Nat → Str → Str
  | 0, s => s
  | _ + 1, [] => []
  | fuel + 1, c :: rest =>
    match pat (c :: rest) with
    | some s' => subAll pat fuel s'
    | none => c :: subAll pat fuel rest

/-- One pass of the three substitutions in strip_attrs's loop body. -/
def reSubPass (s : Str) : Str :=
  let s1 := subAll m_dd_leadcomma s.length s
  let s2 := subAll m_dd_trailcomma s1.length s1
  subAll m_dd_end s2.length s2

/-- strings.strip_attrs (names fixed to the source's default
`("DefaultData",)`): remove DefaultData attribute assignments from the
attribute list, applying the three regexes up to two rounds. -/
def strip_attrs (defText : Str) : Str :=
  if defText.isEmpty || !(containsSubstr defText (str "DefaultData")) then
    defText
  else
    let s1 := reSubPass defText
    if s1 == defText then defText
    else
      let s2 := reSubPass s1
      if s2 == s1 then s1 else s2

/-! ## Domain model (models.py) -/

/-- Join with a separator string. -/
def joinWith (sep : Str) (ls : List Str) : Str := (ls.intersperse sep).flatten

/-- models._dedent_lines: keep the non-blank lines of a stored definition. -/
def models_dedent_lines (def_text : Str) : List Str :=
  (splitlinesPy def_text).filter (fun ln => !(stripWS ln).isEmpty)

/-- models._indent_lines. -/
def models_indent_lines (lines : List Str) (level : Nat) (indent : Str) : List Str :=
  lines.map (fun ln => repStr indent level ++ rstripWS ln)

/-- models.Tag. -/
structure Tag where
  name : Str
  data_type : Str
  description : Str := []
  definition : Option Str := none

/-- models.Tag.to_l5k: name, type and description, never values. -/
def Tag.to_l5k (t : Tag) (level : Nat) (indent : Str) : List Str :=
  let line :=
    if !t.description.isEmpty then
      t.name ++ str " : " ++ t.data_type ++ str " (Description := " ++ [dquote]
        ++ t.description ++ [dquote] ++ str ");"
    else t.name ++ str " : " ++ t.data_type ++ str ";"
  models_indent_lines [line] level indent

/-- models.UDTMember, including the nested `children` collection used by the
hidden-word / bit-alias idiom (children are stored by value here; the
Python original stores object references). -/
inductive UDTMember : Type where
  | mk (name data_type description : Str) (definition : Option Str)
       (is_hidden_parent is_bit : Bool) (parent_word : Option Str)
       (bit_index : Option Nat) (name_dims : Str)
       (children : List (Str × UDTMember)) : UDTMember

def UDTMember.name : UDTMember → Str
  | .mk n _ _ _ _ _ _ _ _ _ => n

def UDTMember.data_type : UDTMember → Str
  | .mk _ dt _ _ _ _ _ _ _ _ => dt

def UDTMember.description : UDTMember → Str
  | .mk _ _ d _ _ _ _ _ _ _ => d

def UDTMember.definition : UDTMember → Option Str
  | .mk _ _ _ df _ _ _ _ _ _ => df

def UDTMember.is_hidden_parent : UDTMember → Bool
  | .mk _ _ _ _ hp _ _ _ _ _ => hp

def UDTMember.is_bit : UDTMember → Bool
  | .mk _ _ _ _ _ b _ _ _ _ => b

def UDTMember.parent_word : UDTMember → Option Str
  | .mk _ _ _ _ _ _ pw _ _ _ => pw

def UDTMember.bit_index : UDTMember → Option Nat
  | .mk _ _ _ _ _ _ _ bi _ _ => bi

def UDTMember.name_dims : UDTMember → Str
  | .mk _ _ _ _ _ _ _ _ nd _ => nd

def UDTMember.children : UDTMember → List (Str × UDTMember)
  | .mk _ _ _ _ _ _ _ _ _ ch => ch

/-- In-place update of the three fields rewritten when a hidden word line is
seen for an already-existing member (l5k_parser, hidden-SINT branch). -/
def UDTMember.updateAsHidden (m : UDTMember) (defText : Str) : UDTMember :=
  match m with
  | .mk n _ d _ _ b pw bi nd ch =>
    .mk n (str "SINT") d (some defText) true b pw bi nd ch

/-- models.UDTMember.add_child. -/
def UDTMember.add_child (m child : UDTMember) : UDTMember :=
  match m with
  | .mk n dt d df hp b pw bi nd ch =>
    .mk n dt d df hp b pw bi nd (dictInsert ch child.name child)

/-- models.UDTMember.to_l5k: the captured definition if present and
non-empty, otherwise a minimal type-first fallback line. -/
def UDTMember.to_l5k (m : UDTMember) (level : Nat) (indent : Str) : List Str :=
  match m.definition with
  | some d =>
    if !d.isEmpty then models_indent_lines (models_dedent_lines d) level indent
    else models_indent_lines [m.data_type ++ str " " ++ m.name ++ str ";"] level indent
  | none => models_indent_lines [m.data_type ++ str " " ++ m.name ++ str ";"] level indent

/-- models.UDT. -/
structure UDT where
  name : Str
  description : Str := []
  family_type : Str := str "NoFamily"
  members : Dct UDTMember := []

/-- models.UDT.add_member. -/
def UDT.add_member (u : UDT) (m : UDTMember) : UDT :=
  { u with members := dictInsert u.members m.name m }

/-- The bit member built by the BIT-alias branch of _parse_structures from
the captured definition text: BOOL type, is_bit set, parent_word and
bit_index recording the alias target. -/
def bit_alias_member (aliasNm word : Str) (bit : Nat) (defText : Str) : UDTMember :=
  .mk aliasNm (str "BOOL") (get_desc defText)
    (some (stripWS defText)) false true (some word) (some bit) [] []

/-- The BIT-alias branch of _parse_structures on the current type
definition: store the bit member, create a hidden SINT placeholder for the
word only when no member of that name exists yet (the lookup happens after
the bit member is stored, as in the source), then attach the bit member to
the word member's children. -/
def bit_alias_step (aliasNm word : Str) (bit : Nat) (defText : Str) (u : UDT) : UDT :=
  let child := bit_alias_member aliasNm word bit defText
  let u := u.add_member child
  let u :=
    match dictGet u.members word with
    | none =>
      u.add_member (.mk word (str "SINT") (get_desc defText)
        none true false none none [] [])
    | some _ => u
  { u with members := dictUpdate u.members word (fun m => m.add_child child) }

/-- models.UDT.to_l5k. -/
def UDT.to_l5k (u : UDT) (indent : Str) : List Str :=
  let attrs :=
    (if !u.description.isEmpty then
      [str "Description := " ++ [dquote] ++ u.description ++ [dquote]] else [])
    ++ [str "FamilyType := " ++
        (if u.family_type.isEmpty then str "NoFamily" else u.family_type)]
  let header := indent ++ str "DATATYPE " ++ u.name ++ str " (" ++
    joinWith (str ", ") attrs ++ str ")"
  (header :: (u.members.map (fun p => p.2.to_l5k 2 indent)).flatten)
    ++ [indent ++ str "END_DATATYPE"]

/-- models.AOIParameter. -/
structure AOIParameter where
  name : Str
  data_type : Str
  description : Str := []
  definition : Option Str := none
  is_bit_alias : Bool := false
  is_corrected : Bool := false
deriving DecidableEq

/-- models.AOILocalTag. -/
structure AOILocalTag where
  name : Str
  data_type : Str
  description : Str := []
  definition : Option Str := none
deriving DecidableEq

/-- Tail check `\s*;?\s*$` of models._RE_PARAM_HDR / patterns.RE_AOI_PARAM_DEF. -/
def pHdrTailOk (t : Str) : Bool :=
  let t1 := dropWS t
  let t2 := match t1 with
    | c :: r => if c == ';' then r else t1
    | [] => t1
  (dropWS t2).isEmpty

/-- The greedy `(.*)\)\s*;?\s*$` of the parameter-header regex: the content
before the last ')' whose tail matches. -/
def lastParenSplit (rest : Str) : Option Str :=
  go rest.length
where
  go : Nat → Option Str
    | 0 => none
    | j + 1 =>
      if rest.getD j ' ' == ')' && pHdrTailOk (rest.drop (j + 1)) then
        some (rest.take j)
      else go j

/-- models._RE_PARAM_HDR and patterns.RE_AOI_PARAM_DEF:
`^\s*(\w+)\s+(OF|:)\s+([\w.:]+)\s*\((.*)\)\s*;?\s*$` (DOTALL). -/
def paramHdrMatch (s : Str) : Option (Str × Str × Str × Str) :=
  let s1 := dropWS s
  match s1 with
  | c :: t =>
    if isWordChar c then
      let nmRest := t.takeWhile isWordChar
      let name := c :: nmRest
      let r1 := t.drop nmRest.length
      match r1 with
      | d :: t2 =>
        if isPyWS d then
          let r2 := dropWS t2
          let afterCat : Option (Str × Str) :=
            ((lit (str "OF") r2).bind (fun r3 =>
              match r3 with
              | e :: t3 => if isPyWS e then some (str "OF", dropWS t3) else none
              | [] => none))
            <|>
            (match r2 with
             | e :: t3 =>
               if e == ':' then
                 match t3 with
                 | f :: t4 => if isPyWS f then some (str ":", dropWS t4) else none
                 | [] => none
               else none
             | [] => none)
          match afterCat with
          | none => none
          | some (cat, r4) =>
            match r4 with
            | e :: t4 =>
              if isWordChar e || e == '.' || e == ':' then
                let rhsRest := t4.takeWhile (fun x => isWordChar x || x == '.' || x == ':')
                let rhs := e :: rhsRest
                let r5 := dropWS (t4.drop rhsRest.length)
                match r5 with
                | f :: t5 =>
                  if f == '(' then
                    (lastParenSplit t5).map (fun attrs => (name, cat, rhs, attrs))
                  else none
                | [] => none
              else none
            | [] => none
        else none
      | [] => none
    else none
  | [] => none

/-- models.AOIParameter._emit_plain_bool: rewrite a bit-alias parameter to a
plain `: BOOL` declarator, salvaging the attribute list. -/
def AOIParameter.emit_plain_bool (p : AOIParameter) (level : Nat) (indent : Str) : List Str :=
  let attrs :=
    match p.definition with
    | some d =>
      if !d.isEmpty then
        match paramHdrMatch (stripWS d) with
        | some (_, _, _, a) => a
        | none => []
      else []
    | none => []
  let body := models_dedent_lines attrs
  [repStr indent level ++ p.name ++ str " : BOOL ("]
    ++ (body.filter (fun a => !a.isEmpty)).map
        (fun a => repStr indent (level + 1) ++ rstripWS a)
    ++ [repStr indent level ++ str ");"]

/-- models.AOIParameter.to_l5k. -/
def AOIParameter.to_l5k (p : AOIParameter) (level : Nat) (indent : Str) : List Str :=
  if p.is_bit_alias then p.emit_plain_bool level indent
  else
    match p.definition with
    | some d =>
      if !d.isEmpty then models_indent_lines (models_dedent_lines d) level indent
      else models_indent_lines [p.name ++ str " : " ++ p.data_type ++ str " ();"] level indent
    | none =>
      models_indent_lines [p.name ++ str " : " ++ p.data_type ++ str " ();"] level indent

/-- models.AOILocalTag.to_l5k. -/
def AOILocalTag.to_l5k (t : AOILocalTag) (level : Nat) (indent : Str) : List Str :=
  match t.definition with
  | some d =>
    if !d.isEmpty then models_indent_lines (models_dedent_lines d) level indent
    else models_indent_lines [t.name ++ str " : " ++ t.data_type ++ str " ();"] level indent
  | none =>
    models_indent_lines [t.name ++ str " : " ++ t.data_type ++ str " ();"] level indent

/-- models.AOI. -/
structure AOI where
  name : Str
  description : Str := []
  parameters : Dct AOIParameter := []
  localtags : Dct AOILocalTag := []
deriving DecidableEq

/-- models.AOI.add_parameter. -/
def AOI.add_parameter (a : AOI) (p : AOIParameter) : AOI :=
  { a with parameters := dictInsert a.parameters p.name p }

/-- models.AOI.add_localtag. -/
def AOI.add_localtag (a : AOI) (t : AOILocalTag) : AOI :=
  { a with localtags := dictInsert a.localtags t.name t }

/-- models.Program. -/
structure Program where
  name : Str
  description : Str := []
  tags : Dct Tag := []

/-- models.L5KProject (the header entity is its raw content string). -/
structure L5KProject where
  header : Option Str := none
  tags : Dct Tag := []
  udts : Dct UDT := []
  aois : Dct AOI := []
  programs : Dct Program := []

/-! ## textwrap.dedent (used by the block-capture routine) -/

/-- Space or tab (the `[ \t]` class of textwrap's regexes). -/
def isSpaceTab (c : Char) : Bool := c == ' ' || c == tabChar

/-- A line matching `^[ \t]+$`: non-empty and all space/tab. -/
def wsOnlyLine (l : Str) : Bool := !l.isEmpty && l.all isSpaceTab

/-- Longest common prefix of two strings. -/
def lcpStr : Str → Str → Str
  | a :: as, b :: bs => if a == b then a :: lcpStr as bs else []
  | _, _ => []

/-- textwrap.dedent: blank out whitespace-only lines, compute the common
leading space/tab margin of the remaining lines, and strip it from every
line that starts with it. -/
def dedentText (text : Str) : Str :=
  let ls := (splitNL text).map (fun l => if wsOnlyLine l then [] else l)
  let indents := (ls.filter (fun l => l.any (fun c => !isSpaceTab c))).map
    (fun l => l.takeWhile isSpaceTab)
  let margin := match indents with
    | [] => []
    | i0 :: rest => rest.foldl lcpStr i0
  if margin.isEmpty then joinNL ls
  else joinNL (ls.map (fun l =>
    if margin.isPrefixOf l then l.drop margin.length else l))

/-- strings.dedent_lines: dedent, strip outer newlines, split into lines. -/
def dedent_lines (def_text : Str) : List Str :=
  if def_text.isEmpty then []
  else splitlinesPy (stripNL (dedentText def_text))

/-! ## Parser regexes (patterns.py) as matchers -/

/-- patterns.RE_CONTROLLER_HDR: `^CONTROLLER\s+([A-Za-z_]\w*)\s*(\(|$)`. -/
def controllerHdrMatch (s : Str) : Option Str := do
  let r1 ← lit (str "CONTROLLER") s
  match r1 with
  | c :: t =>
    if isPyWS c then
      let r2 := dropWS t
      match r2 with
      | d :: t2 =>
        if isAlphaU d then
          let nm := d :: t2.takeWhile isWordChar
          let r3 := dropWS (t2.drop (nm.length - 1))
          match r3 with
          | [] => some nm
          | e :: _ => if e == '(' then some nm else none
        else none
      | [] => none
    else none
  | [] => none

/-- utils.extract_block_name: `^<header>\s+([^\s(]+)` searched (anchored). -/
def extract_block_name (header_line : Str) (header : Str) : Option Str :=
  match lit header header_line with
  | none => none
  | some r1 =>
    match r1 with
    | c :: t =>
      if isPyWS c then
        let r2 := dropWS t
        let g := r2.takeWhile (fun d => !isPyWS d && !(d == '('))
        if g.isEmpty then none else some g
      else none
    | [] => none

/-- patterns.RE_UDT_TYPEFIRST:
`^([A-Za-z_]\w*) ([A-Za-z_]\w*)(\[\d+(?:,\d+)*\])?` — note the single
literal space between type and name. Returns (dtype, name, name_dims). -/
def udtTypefirstMatch (s : Str) : Option (Str × Str × Str) :=
  match s with
  | c :: t =>
    if isAlphaU c then
      let dtRest := t.takeWhile isWordChar
      let dtype := c :: dtRest
      match t.drop dtRest.length with
      | d :: t2 =>
        if d == ' ' then
          match t2 with
          | e :: t3 =>
            if isAlphaU e then
              let nmRest := t3.takeWhile isWordChar
              let name := e :: nmRest
              let r := t3.drop nmRest.length
              let dims := match dimsMatch r with
                | some ds => ds
                | none => []
              some (dtype, name, dims)
            else none
          | [] => none
        else none
      | [] => none
    else none
  | [] => none
where
  /-- Optional `\[\d+(?:,\d+)*\]` group on the name. -/
  dimsMatch (r : Str) : Option Str :=
    match r with
    | b :: t =>
      if b == '[' then
        match digitsGroups t with
        | some (body, rest) =>
          match rest with
          | e :: _ => if e == ']' then some (('[' :: body) ++ [']']) else none
          | [] => none
        | none => none
      else none
    | [] => none
  /-- Pattern `\d+(?:,\d+)*` together with the remaining suffix: the leading
  digit run followed by greedily consumed `,\d+` groups. -/
  digitsGroups (t : Str) : Option (Str × Str) :=
    let ds := t.takeWhile Char.isDigit
    if ds.isEmpty then none
    else
      let (more, rest) := digitRunsGo t.length (t.drop ds.length)
      some (ds ++ more, rest)
  /-- Greedy `(?:,\d+)*`, returning consumed text and the rest. -/
  digitRunsGo : Nat → Str → Str × Str
    | 0, t => ([], t)
    | fuel + 1, t =>
      match t with
      | c :: t2 =>
        if c == ',' then
          let ds := t2.takeWhile Char.isDigit
          if ds.isEmpty then ([], t)
          else
            let (more, rest) := digitRunsGo fuel (t2.drop ds.length)
            ((',' :: ds) ++ more, rest)
        else ([], t)
      | [] => ([], t)

/-- patterns.RE_UDT_BIT_ALIAS: `^BIT\s+(\w+)\s+(\w+)\s*:\s*(\d+)\b`.
Returns (alias, word, bit). -/
def bitAliasMatch (s : Str) : Option (Str × Str × Nat) := do
  let r1 ← lit (str "BIT") s
  match r1 with
  | c :: t =>
    if isPyWS c then
      let r2 := dropWS t
      match r2 with
      | d :: t2 =>
        if isWordChar d then
          let aliasNm := d :: t2.takeWhile isWordChar
          let r3 := t2.drop (aliasNm.length - 1)
          match r3 with
          | e :: t3 =>
            if isPyWS e then
              let r4 := dropWS t3
              match r4 with
              | f :: t4 =>
                if isWordChar f then
                  let word := f :: t4.takeWhile isWordChar
                  let r5 := dropWS (t4.drop (word.length - 1))
                  match r5 with
                  | g :: t5 =>
                    if g == ':' then
                      let r6 := dropWS t5
                      let ds := r6.takeWhile Char.isDigit
                      if ds.isEmpty then none
                      else
                        -- the trailing `\b`: the next character must not be
                        -- a word character
                        match r6.drop ds.length with
                        | [] => some (aliasNm, word, natOfDigits ds)
                        | h :: _ =>
                          if isWordChar h then none
                          else some (aliasNm, word, natOfDigits ds)
                    else none
                  | [] => none
                else none
              | [] => none
            else none
          | [] => none
        else none
      | [] => none
    else none
  | [] => none
where
  natOfDigits (ds : Str) : Nat :=
    ds.foldl (fun n c => n * 10 + (c.toNat - 48)) 0

/-- patterns.RE_AOI_PARAM: `^([\w]+)\s+(?:OF|:)\s+([\w.]+)`.
Returns (name, dtype_or_path). -/
def aoiParamMatch (s : Str) : Option (Str × Str) :=
  match s with
  | c :: t =>
    if isWordChar c then
      let name := c :: t.takeWhile isWordChar
      let r1 := t.drop (name.length - 1)
      match r1 with
      | d :: t2 =>
        if isPyWS d then
          let r2 := dropWS t2
          let afterCat : Option Str :=
            ((lit (str "OF") r2).bind (fun r3 =>
              match r3 with
              | e :: t3 => if isPyWS e then some (dropWS t3) else none
              | [] => none))
            <|>
            (match r2 with
             | e :: t3 =>
               if e == ':' then
                 match t3 with
                 | f :: t4 => if isPyWS f then some (dropWS t4) else none
                 | [] => none
               else none
             | [] => none)
          match afterCat with
          | none => none
          | some r4 =>
            match r4 with
            | e :: t4 =>
              if isWordChar e || e == '.' then
                some (name, e :: t4.takeWhile (fun x => isWordChar x || x == '.'))
              else none
            | [] => none
        else none
      | [] => none
    else none
  | [] => none

/-- patterns.RE_AOI_LOCALTAG: `^([\w]+)\s*:\s*([\w]+)`.
Returns (name, dtype). -/
def aoiLocaltagMatch (s : Str) : Option (Str × Str) :=
  match s with
  | c :: t =>
    if isWordChar c then
      let name := c :: t.takeWhile isWordChar
      let r1 := dropWS (t.drop (name.length - 1))
      match r1 with
      | d :: t2 =>
        if d == ':' then
          let r2 := dropWS t2
          match r2 with
          | e :: t3 =>
            if isWordChar e then some (name, e :: t3.takeWhile isWordChar)
            else none
          | [] => none
        else none
      | [] => none
    else none
  | [] => none

/-- The ENCODED_DATA name extraction `Name\s*:=\s*"([^"]+)"` (case-sensitive
`re.search`). -/
def searchEncodedName : Str → Option Str
  | [] => none
  | s@(_ :: t) =>
    match nameMatchAt s with
    | some g => some g
    | none => searchEncodedName t
where
  nameMatchAt (s : Str) : Option Str := do
    let s1 ← lit (str "Name") s
    let s2 := dropWS s1
    let s3 ← lit (str ":=") s2
    let s4 := dropWS s3
    match s4 with
    | c :: t =>
      if c == dquote then
        let body := t.takeWhile (fun d => !(d == dquote))
        if body.isEmpty then none
        else
          match t.drop body.length with
          | d :: _ => if d == dquote then some body else none
          | [] => none
      else none
    | [] => none

/-- patterns.RE_FAMILYTYPE: `\bFamilyType\s*:=\s*([A-Za-z_]\w*)`
(IGNORECASE `re.search`); the scan tracks the previous character for the
word boundary. -/
def searchFamilyType (s : Str) : Option Str :=
  go none s
where
  ftMatchAt (s : Str) : Option Str := do
    let s1 ← litCI (str "familytype") s
    let s2 := dropWS s1
    let s3 ← lit (str ":=") s2
    let s4 := dropWS s3
    match s4 with
    | c :: t =>
      if isAlphaU c then some (c :: t.takeWhile isWordChar) else none
    | [] => none
  go (prev : Option Char) : Str → Option Str
    | [] => none
    | s@(c :: t) =>
      let boundary := match prev with
        | none => true
        | some p => !isWordChar p
      match (if boundary then ftMatchAt s else none) with
      | some g => some g
      | none => go (some c) t

/-! ## TagBuffer (l5k_parser.py) -/

/-- l5k_parser.TagBuffer: incremental TAG-statement accumulator state. -/
structure TagBuffer where
  parts : List Str := []
  depth : Nat := 0
  in_sq : Bool := false
  in_dq : Bool := false
  esc : Bool := false

/-- TagBuffer.reset. -/
def TagBuffer.reset (_tb : TagBuffer) : TagBuffer := {}

/-- One character of TagBuffer.feed: the same update as the lexical scanner,
plus completion when a ';' is seen at depth zero outside quotes. -/
def tbStep (acc : ScanSt × Bool) (c : Char) : ScanSt × Bool :=
  let (st, complete) := acc
  let complete := complete ||
    (!st.in_sq && !st.in_dq && c == ';' && st.depth == 0)
  (scanChar st c, complete)

/-- TagBuffer.feed: append the chunk and scan it; true when a top-level ';'
was seen. -/
def TagBuffer.feed (tb : TagBuffer) (chunk : Str) : TagBuffer × Bool :=
  let st0 : ScanSt := ⟨tb.depth, tb.in_sq, tb.in_dq, tb.esc⟩
  let (st, complete) := chunk.foldl tbStep (st0, false)
  ({ parts := tb.parts ++ [chunk], depth := st.depth,
     in_sq := st.in_sq, in_dq := st.in_dq, esc := st.esc }, complete)

/-- TagBuffer.flush: join the accumulated parts with single spaces, reset. -/
def TagBuffer.flush (tb : TagBuffer) : Str × TagBuffer :=
  (joinSpace tb.parts, {})

/-! ## patterns.RE_TAG_PREFIX
`^\s*([A-Za-z_][\w.]*)\s*(?:(?i:OF)\s+([A-Za-z_][\w.\[\]:]*))?\s*:\s*(.+?)\s*$`
(DOTALL), with the regex engine's backtracking through the greedy groups. -/

/-- The `\s*(.+?)\s*$` tail after the colon: greedy leading whitespace, lazy
non-empty group, trailing whitespace; on an all-whitespace remainder the
group backtracks to the final whitespace character. -/
def tagTailGroup (u : Str) : Option Str :=
  match u with
  | [] => none
  | _ =>
    let v := dropWS u
    if !v.isEmpty then some (rstripWS v)
    else u.getLast?.map (fun c => [c])

/-- The `\s*:` following the optional OF group, then the tail group. -/
def tagAfterOpt (r : Str) : Option Str :=
  btStar isPyWS (fun r2 =>
    match r2 with
    | c :: t => if c == ':' then tagTailGroup t else none
    | [] => none) r

/-- The optional `(?i:OF)\s+([A-Za-z_][\w.\[\]:]*)` group. -/
def tagTryOF (r : Str) : Option Str :=
  (litCI (str "of") r).bind fun r3 =>
    match r3 with
    | c :: t =>
      if isPyWS c then
        btStar isPyWS (fun r4 =>
          match r4 with
          | d :: t2 =>
            if isAlphaU d then
              btStar (fun x => isWordChar x || x == '.' || x == '[' ||
                               x == ']' || x == ':') tagAfterOpt t2
            else none
          | [] => none) t
      else none
    | [] => none

/-- RE_TAG_PREFIX match; returns (group1 name, group3 type text). -/
def tagPrefixMatch (s : Str) : Option (Str × Str) :=
  let s1 := dropWS s
  match s1 with
  | c :: t =>
    if isAlphaU c then
      btStar (fun d => isWordChar d || d == '.')
        (fun rest1 =>
          let name := s1.take (s1.length - rest1.length)
          (btStar isPyWS (fun r2 => tagTryOF r2 <|> tagAfterOpt r2) rest1).map
            (fun g3 => (name, g3))) t
    else none
  | [] => none

/-! ## TAG statement parsing (l5k_parser._parse_tag_fields and emitters) -/

/-- Natural number rendered in decimal (for the f-string line numbers). -/
def natToStr (n : Nat) : Str := (toString n).toList

/-- L5KParser._parse_tag_fields: discard the top-level `:=` value and any
top-level force-data comma, split off the trailing attribute group, match
the `name [OF alias] : type` prefix; rebuild a value-free definition.
Returns (name, dtype, desc, definition) or none for a malformed statement. -/
def parse_tag_fields (buf : Str) (strip_paren_from_dtype : Bool) :
    Option (Str × Str × Str × Str) :=
  let stmt := stripWS buf
  let left := match first_outside_parens stmt (str ":=") with
    | none => stmt
    | some idx => rstripWS (stmt.take idx)
  let left := match first_outside_parens left (str ",") with
    | none => left
    | some idx => rstripWS (left.take idx)
  let (pre, attrs) := split_outer_attrs left
  match tagPrefixMatch pre with
  | none => none
  | some (name, g3) =>
    let dtype := stripWS g3
    let dtype :=
      if strip_paren_from_dtype && dtype.contains '(' then
        stripWS (dtype.takeWhile (fun c => !(c == '(')))
      else dtype
    let desc := if !attrs.isEmpty then get_desc attrs else []
    let defText := if !attrs.isEmpty then pre ++ str " (" ++ attrs ++ str ")" else pre
    let defText :=
      if !(endsWith defText (str ";")) then rstripWS defText ++ str ";"
      else defText
    some (name, dtype, desc, defText)

/-- L5KParser._emit_tag_spec: store a parsed controller tag. -/
def emit_tag_spec (proj : L5KProject) (buf : Str) : L5KProject :=
  match parse_tag_fields buf false with
  | none => proj
  | some (name, dtype, desc, defText) =>
    let tg : Tag := { name := name, data_type := dtype, description := desc,
                      definition := some defText }
    { proj with tags := dictInsert proj.tags name tg }

/-- L5KParser._emit_prog_tag_spec: store a parsed program tag on its
program (dropped when the program is unknown). -/
def emit_prog_tag_spec (proj : L5KProject) (prog : Str) (buf : Str) : L5KProject :=
  if !(dictContains proj.programs prog) then proj
  else
    match parse_tag_fields buf true with
    | none => proj
    | some (name, dtype, desc, defText) =>
      let tg : Tag := { name := name, data_type := dtype, description := desc,
                        definition := some defText }
      { proj with programs := dictUpdate proj.programs prog (fun p =>
          { p with tags := dictInsert p.tags name tg }) }

/-! ## Block capture (the capture_block closure in _parse_structures) -/

/-- The accumulation loop of capture_block over the remaining lines. -/
def captureGo : List Str → Int → List Str → Nat → List Str × Nat
  | [], _, acc, j => (acc, j)
  | lj :: rest, depth, acc, j =>
    let line_j := rstripChar nlChar lj
    let acc' := acc ++ [line_j]
    let depth' := depth + paren_delta line_j
    if depth' == 0 && endsWith (stripWS line_j) (str ";") then (acc', j + 1)
    else captureGo rest depth' acc' (j + 1)

/-- capture_block: capture from start_idx through the line where the paren
depth returns to zero and the line ends with ';'; a first line that already
ends with ');' (or has no '(' and ends with ';') is a one-line block.
Returns (dedented joined text, next index after the block). -/
def capture_block (lines : List Str) (start_idx : Nat) : Str × Nat :=
  let raw := lines.getD start_idx []
  let acc0 := [rstripChar nlChar raw]
  let first := stripWS raw
  if endsWith first (str ");") ||
     (!(first.contains '(') && endsWith first (str ";")) then
    (stripNL (dedentText (joinNL acc0)), start_idx + 1)
  else
    let depth := paren_delta raw
    let (acc, j) := captureGo (lines.drop (start_idx + 1)) depth acc0 (start_idx + 1)
    (stripNL (dedentText (joinNL acc)), j)

/-! ## Controller header capture and file header extraction -/

/-- The attribute-list consumption loop of _capture_controller_header. -/
def ctrlGo : List Str → Int → List Str → Nat → List Str × Nat
  | [], _, hdr, j => (hdr, j)
  | lj :: rest, depth, hdr, j =>
    if depth > 0 then
      ctrlGo rest (depth + paren_delta lj) (hdr ++ [rstripChar nlChar lj]) (j + 1)
    else (hdr, j)

/-- L5KParser._capture_controller_header: the CONTROLLER line, plus the
attribute list when present (also when the '(' starts on the next line).
Returns (header_lines, next index, controller name). -/
def capture_controller_header (lines : List Str) (i : Nat) :
    List Str × Nat × Option Str :=
  let n := lines.length
  let first := rstripChar nlChar (lines.getD i [])
  let name := controllerHdrMatch (stripWS first)
  let header := [first]
  let depth := paren_delta first
  let j := i + 1
  let (header, depth, j) :=
    if depth == 0 && j < n && startsWith (lstripWS (lines.getD j [])) (str "(") then
      (header ++ [rstripChar nlChar (lines.getD j [])],
       depth + paren_delta (lines.getD j []), j + 1)
    else (header, depth, j)
  let (header, j') := ctrlGo (lines.drop j) depth header j
  (header, j', name)

/-- The parser object's fields (l5k_parser.L5KParser). -/
structure ParserSt where
  lines : List Str
  project : L5KProject
  corrected_tags_log : List Str
  controller_name : Option Str
  controller_header_lines : List Str
  header_text : Str

/-- L5KParser.__init__. -/
def mkParser (content : Str) : ParserSt :=
  ⟨splitlinesPy content, {}, [], none, [], []⟩

/-- The byte-order mark stripped by _parse_header. -/
def bomChar : Char := Char.ofNat 0xFEFF

/-- HEADER_OPEN_RE: `^(?:﻿)?\(\*{5,}\s*$`. -/
def headerOpenMatch (s : Str) : Bool :=
  let s1 := match s with
    | c :: t => if c == bomChar then t else s
    | [] => s
  match s1 with
  | c :: t =>
    if c == '(' then
      let stars := t.takeWhile (fun d => d == '*')
      decide (stars.length ≥ 5) && (dropWS (t.drop stars.length)).isEmpty
    else false
  | [] => false

/-- HEADER_CLOSE_RE: `^\*{5,}\)\s*$`. -/
def headerCloseMatch (s : Str) : Bool :=
  let stars := s.takeWhile (fun d => d == '*')
  decide (stars.length ≥ 5) &&
    (match s.drop stars.length with
     | c :: t => c == ')' && (dropWS t).isEmpty
     | [] => false)

/-- The per-line normalization of _parse_header before delimiter matching:
`ln.lstrip('﻿').rstrip('\r\n')` followed by `.strip()`. -/
def headerLineProc (ln : Str) : Str := stripWS (rstripCRLF (lstripChar bomChar ln))

/-- L5KParser._parse_header: the block from the open delimiter through the
close delimiter plus the next two lines (an absent close falls back to the
open line itself); no-op when no open delimiter exists. -/
def parse_header (pr : ParserSt) : ParserSt :=
  let lines := pr.lines
  let n := lines.length
  match List.findIdx? (fun ln => headerOpenMatch (headerLineProc ln)) lines with
  | none => pr
  | some start =>
    let endIdx := match List.findIdx?
        (fun ln => headerCloseMatch (headerLineProc ln)) (lines.drop start) with
      | some k => start + k
      | none => start
    let end_inclusive := min (endIdx + 2) (n - 1)
    let header_lines := (lines.take (end_inclusive + 1)).drop start
    let header_text := joinNL header_lines
    { pr with header_text := header_text,
              project := { pr.project with header := some header_text } }

/-! ## The parser state machine (_parse_structures) -/

/-- The mode flags of the state machine (l5k_parser.ParseState). -/
structure ParseState where
  in_udt : Bool := false
  in_aoi : Bool := false
  in_aoi_params : Bool := false
  in_aoi_localtags : Bool := false
  in_controller : Bool := false
  in_tags : Bool := false
  in_program : Bool := false
  in_prog_tags : Bool := false
  cur_program : Option Str := none

/-- The `current_struct` reference: Python holds an object reference into
one of the model dicts; here the reference is the kind plus the key. -/
inductive CurRef where
  | udtRef (name : Str)
  | aoiRef (name : Str)

/-- The mutable context of the _parse_structures loop. -/
structure PSLoopSt where
  pr : ParserSt
  st : ParseState
  cur : Option CurRef
  tag_buf : TagBuffer
  prog_tag_buf : TagBuffer

/-- The multi-line DATATYPE header consumption loop (runs while depth > 0,
breaking after the line on which depth falls to zero or below). -/
def dtHeaderGo : List Str → Int → List Str → Nat → List Str × Nat
  | [], _, acc, j => (acc, j)
  | lj :: rest, depth, acc, j =>
    let line_j := rstripChar nlChar lj
    let acc' := acc ++ [line_j]
    let depth' := depth + paren_delta line_j
    if depth' ≤ 0 then (acc', j + 1)
    else dtHeaderGo rest depth' acc' (j + 1)

/-- The ENCODED_DATA metadata consumption loop (through the first line
containing a ')'). -/
def encGo : List Str → List Str → Nat → List Str × Nat
  | [], acc, j => (acc, j)
  | lj :: rest, acc, j =>
    let acc' := acc ++ [rstripChar nlChar lj]
    if lj.contains ')' then (acc', j + 1)
    else encGo rest acc' (j + 1)

/-- Python `s.split(pat, 1)[1]`: the text after the first occurrence of a
substring (empty when absent, which the callers guard against). -/
def afterFirstSubstr (s pat : Str) : Str :=
  go s
where
  go : Str → Str
    | [] => []
    | s@(_ :: t) =>
      match lit pat s with
      | some rest => rest
      | none => go t

/-- One iteration step plus recursion of the _parse_structures scan loop;
every branch advances the line index by at least one, so fuel equal to the
line count reproduces the source's `while i < n` loop exactly. -/
def psLoop (lines : List Str) : Nat → Nat → PSLoopSt → PSLoopSt
  | 0, _, ls => ls
  | fuel + 1, i, ls =>
    if i < lines.length then
      let raw := lines.getD i []
      let stripped := stripWS raw
      let pr := ls.pr
      let st := ls.st
      if stripped.isEmpty then
        psLoop lines fuel (i + 1) ls
      -- Controller / Tags transitions
      else if startsWith stripped (str "CONTROLLER") then
        let st := { st with in_controller := true }
        if pr.controller_header_lines.isEmpty then
          let (hdr, j, cname) := capture_controller_header lines i
          psLoop lines fuel j
            { ls with st := st,
                      pr := { pr with controller_header_lines := hdr,
                                      controller_name := cname } }
        else psLoop lines fuel (i + 1) { ls with st := st }
      else if startsWith stripped (str "END_CONTROLLER") then
        psLoop lines fuel (i + 1) { ls with st := { st with in_controller := false } }
      else if st.in_controller && !st.in_program && stripped == str "TAG" then
        psLoop lines fuel (i + 1)
          { ls with st := { st with in_tags := true }, tag_buf := {} }
      else if st.in_controller && !st.in_program && stripped == str "END_TAG" then
        let ls :=
          if !ls.tag_buf.parts.isEmpty then
            let (buf, tb) := ls.tag_buf.flush
            { ls with pr := { pr with project := emit_tag_spec pr.project buf },
                      tag_buf := tb }
          else { ls with tag_buf := {} }
        psLoop lines fuel (i + 1)
          { ls with st := { st with in_tags := false } }
      else if st.in_program && stripped == str "TAG" then
        psLoop lines fuel (i + 1)
          { ls with st := { st with in_prog_tags := true }, prog_tag_buf := {} }
      else if st.in_program && stripped == str "END_TAG" then
        let ls :=
          match st.cur_program with
          | some p =>
            if st.in_prog_tags && !ls.prog_tag_buf.parts.isEmpty then
              let (buf, tb) := ls.prog_tag_buf.flush
              { ls with pr := { pr with project := emit_prog_tag_spec pr.project p buf },
                        prog_tag_buf := tb }
            else { ls with prog_tag_buf := {} }
          | none => { ls with prog_tag_buf := {} }
        psLoop lines fuel (i + 1)
          { ls with st := { st with in_prog_tags := false } }
      -- State transitions
      else if startsWith stripped (str "DATATYPE") then
        let hdr0 := rstripChar nlChar raw
        let depth := paren_delta stripped
        let (hdr_lines, j) :=
          if depth > 0 then dtHeaderGo (lines.drop (i + 1)) depth [hdr0] (i + 1)
          else ([hdr0], i + 1)
        let header_blob := joinSpace (hdr_lines.map stripWS)
        let pr :=
          if paren_delta (joinSpace hdr_lines) != 0 then
            { pr with corrected_tags_log := pr.corrected_tags_log ++
                [str "Unballanced parens in header starting at line " ++ natToStr (i + 1)] }
          else pr
        match extract_block_name (stripWS hdr0) (str "DATATYPE") with
        | none => psLoop lines fuel j { ls with pr := pr }
        | some name =>
          let u0 : UDT := { name := name }
          let d := get_desc header_blob
          let u1 := if !d.isEmpty then { u0 with description := d } else u0
          let u2 := match searchFamilyType header_blob with
            | some ft => { u1 with family_type := ft }
            | none => u1
          let proj' := { pr.project with udts := dictInsert pr.project.udts name u2 }
          psLoop lines fuel j
            { ls with
              pr := { pr with project := proj' }
              st := { st with in_udt := true, in_aoi := false,
                              in_aoi_params := false, in_aoi_localtags := false }
              cur := some (.udtRef name) }
      else if startsWith stripped (str "END_DATATYPE") then
        psLoop lines fuel (i + 1)
          { ls with st := { st with in_udt := false }, cur := none }
      else if startsWith stripped (str "ADD_ON_INSTRUCTION_DEFINITION") then
        let st := { st with in_aoi := true, in_udt := false }
        match extract_block_name stripped (str "ADD_ON_INSTRUCTION_DEFINITION") with
        | none => psLoop lines fuel (i + 1) { ls with st := st }
        | some name =>
          let a0 : AOI := { name := name }
          let d := get_desc stripped
          let a1 := if !d.isEmpty then { a0 with description := d } else a0
          let proj' := { pr.project with aois := dictInsert pr.project.aois name a1 }
          psLoop lines fuel (i + 1)
            { ls with
              pr := { pr with project := proj' }
              st := st
              cur := some (.aoiRef name) }
      else if startsWith stripped (str "END_ADD_ON_INSTRUCTION_DEFINITION") then
        psLoop lines fuel (i + 1)
          { ls with st := { st with in_aoi := false }, cur := none }
      -- Encoded AOI header
      else if startsWith stripped (str "ENCODED_DATA") then
        let (meta_lines, j) := encGo (lines.drop (i + 1)) [rstripChar nlChar raw] (i + 1)
        let meta_blob := joinSpace (meta_lines.map stripWS)
        if containsSubstr meta_blob (str "EncodedType := ADD_ON_INSTRUCTION_DEFINITION") then
          match searchEncodedName meta_blob with
          | some aoi_name =>
            let a0 : AOI := { name := aoi_name }
            let d := get_desc meta_blob
            let a1 := if !d.isEmpty then { a0 with description := d } else a0
            let proj' := { pr.project with aois := dictInsert pr.project.aois aoi_name a1 }
            psLoop lines fuel j
              { ls with
                pr := { pr with project := proj' }
                st := { st with in_aoi := true, in_udt := false,
                                in_aoi_params := false, in_aoi_localtags := false }
                cur := some (.aoiRef aoi_name) }
          | none => psLoop lines fuel j ls
        else psLoop lines fuel j ls
      else if startsWith stripped (str "END_ENCODED_DATA") then
        psLoop lines fuel (i + 1)
          { ls with st := { st with in_aoi := false }, cur := none }
      -- PROGRAM start/end
      else if startsWith stripped (str "PROGRAM") then
        let after_kw := lstripWS (afterFirstSubstr raw (str "PROGRAM"))
        let prog_name :=
          if after_kw.isEmpty then []
          else after_kw.takeWhile (fun c => !isPyWS c)
        let prog_name :=
          if prog_name.contains '(' then prog_name.takeWhile (fun c => !(c == '('))
          else prog_name
        let desc := if !prog_name.isEmpty then get_desc raw else []
        let proj := pr.project
        let proj :=
          match (if prog_name.isEmpty then none else dictGet proj.programs prog_name) with
          | none =>
            if !prog_name.isEmpty then
              let pg : Program := { name := prog_name, description := desc }
              { proj with programs := dictInsert proj.programs prog_name pg }
            else proj
          | some existing =>
            if existing.description.isEmpty && !desc.isEmpty then
              let f := fun (p : Program) => { p with description := desc }
              { proj with programs := dictUpdate proj.programs prog_name f }
            else proj
        psLoop lines fuel (i + 1)
          { ls with
            pr := { pr with project := proj }
            st := { st with in_program := !prog_name.isEmpty
                            cur_program := if prog_name.isEmpty then none else some prog_name
                            in_prog_tags := false } }
      else if startsWith stripped (str "END_PROGRAM") then
        let ls :=
          match st.cur_program with
          | some p =>
            if st.in_prog_tags && !ls.prog_tag_buf.parts.isEmpty then
              let (buf, tb) := ls.prog_tag_buf.flush
              { ls with pr := { pr with project := emit_prog_tag_spec pr.project p buf },
                        prog_tag_buf := tb }
            else { ls with prog_tag_buf := {} }
          | none => { ls with prog_tag_buf := {} }
        psLoop lines fuel (i + 1)
          { ls with st := { st with in_program := false, cur_program := none,
                                       in_prog_tags := false } }
      -- Tag lines within PROGRAM/TAG
      else if st.in_program && st.in_prog_tags && st.cur_program.isSome then
        let (tb, complete) := ls.prog_tag_buf.feed (stripWS raw)
        let ls := { ls with prog_tag_buf := tb }
        let ls :=
          if complete then
            match st.cur_program with
            | some p =>
              let (buf, tb') := ls.prog_tag_buf.flush
              { ls with pr := { ls.pr with project := emit_prog_tag_spec ls.pr.project p buf },
                        prog_tag_buf := tb' }
            | none => ls
          else ls
        psLoop lines fuel (i + 1) ls
      -- Tag lines within CONTROLLER/TAG
      else if st.in_controller && st.in_tags then
        let (tb, complete) := ls.tag_buf.feed (stripWS raw)
        let ls := { ls with tag_buf := tb }
        let ls :=
          if complete then
            let (buf, tb') := ls.tag_buf.flush
            { ls with pr := { ls.pr with project := emit_tag_spec ls.pr.project buf },
                      tag_buf := tb' }
          else ls
        psLoop lines fuel (i + 1) ls
      -- Sub-state transitions within AOI
      else if st.in_aoi && stripped == str "PARAMETERS" then
        psLoop lines fuel (i + 1) { ls with st := { st with in_aoi_params := true } }
      else if st.in_aoi && stripped == str "END_PARAMETERS" then
        psLoop lines fuel (i + 1) { ls with st := { st with in_aoi_params := false } }
      else if st.in_aoi && stripped == str "LOCAL_TAGS" then
        psLoop lines fuel (i + 1) { ls with st := { st with in_aoi_localtags := true } }
      else if st.in_aoi && stripped == str "END_LOCAL_TAGS" then
        psLoop lines fuel (i + 1) { ls with st := { st with in_aoi_localtags := false } }
      else
        -- Data parsing
        match ls.cur with
        | some (.udtRef uname) =>
          if st.in_udt then
            match dictGet pr.project.udts uname with
            | none => psLoop lines fuel (i + 1) ls
            | some _ =>
              -- Hidden SINT word (ten-'Z' prefix)
              let tf := udtTypefirstMatch stripped
              let hidden :=
                match tf with
                | some (dtype, name, _) =>
                  if dtype == str "SINT" && startsWith name (repStr (str "Z") 10) then
                    some name
                  else none
                | none => none
              match hidden with
              | some name =>
                let (defText, i_next) := capture_block lines i
                let upd := fun (u : UDT) =>
                  match dictGet u.members name with
                  | none =>
                    u.add_member (.mk name (str "SINT") (get_desc defText)
                      (some (stripWS defText)) true false none none [] [])
                  | some _ =>
                    let f := fun (m : UDTMember) => m.updateAsHidden (stripWS defText)
                    { u with members := dictUpdate u.members name f }
                let proj' := { pr.project with
                  udts := dictUpdate pr.project.udts uname upd }
                psLoop lines fuel i_next { ls with pr := { pr with project := proj' } }
              | none =>
                match bitAliasMatch stripped with
                | some (aliasNm, word, bit) =>
                  let (defText, i_next) := capture_block lines i
                  let upd := bit_alias_step aliasNm word bit defText
                  let proj' := { pr.project with
                    udts := dictUpdate pr.project.udts uname upd }
                  psLoop lines fuel i_next { ls with pr := { pr with project := proj' } }
                | none =>
                  match tf with
                  | some (dtype, name, name_dims) =>
                    let (defText, i_next) := capture_block lines i
                    let upd := fun (u : UDT) =>
                      u.add_member (.mk name dtype (get_desc defText)
                        (some (stripWS defText)) false false none none name_dims [])
                    let proj' := { pr.project with
                      udts := dictUpdate pr.project.udts uname upd }
                    psLoop lines fuel i_next { ls with pr := { pr with project := proj' } }
                  | none => psLoop lines fuel (i + 1) ls
          else psLoop lines fuel (i + 1) ls
        | some (.aoiRef aname) =>
          if st.in_aoi_params then
            match dictGet pr.project.aois aname with
            | none => psLoop lines fuel (i + 1) ls
            | some _ =>
              match aoiParamMatch stripped with
              | some (name, dtype_or_path) =>
                let (defText, i_next) := capture_block lines i
                let defText := strip_attrs defText
                let p : AOIParameter :=
                  { name := name, data_type := dtype_or_path,
                    description := get_desc defText, definition := some defText }
                let f := fun (a : AOI) => a.add_parameter p
                let proj' := { pr.project with
                  aois := dictUpdate pr.project.aois aname f }
                psLoop lines fuel i_next { ls with pr := { pr with project := proj' } }
              | none => psLoop lines fuel (i + 1) ls
          else if st.in_aoi_localtags then
            match dictGet pr.project.aois aname with
            | none => psLoop lines fuel (i + 1) ls
            | some _ =>
              match aoiLocaltagMatch stripped with
              | some (name, dtype) =>
                let (defText, i_next) := capture_block lines i
                let defText := strip_attrs defText
                let t : AOILocalTag :=
                  { name := name, data_type := dtype,
                    description := get_desc defText, definition := some defText }
                let f := fun (a : AOI) => a.add_localtag t
                let proj' := { pr.project with
                  aois := dictUpdate pr.project.aois aname f }
                psLoop lines fuel i_next { ls with pr := { pr with project := proj' } }
              | none => psLoop lines fuel (i + 1) ls
          else psLoop lines fuel (i + 1) ls
        | none => psLoop lines fuel (i + 1) ls
    else ls

/-- L5KParser._parse_structures. -/
def parse_structures (pr : ParserSt) : ParserSt :=
  (psLoop pr.lines (pr.lines.length + 1) 0
    { pr := pr, st := {}, cur := none, tag_buf := {}, prog_tag_buf := {} }).pr

/-! ## Semantic resolver (_find_base_type, _resolve_nested_types) -/

/-- The fixed base-type set of _find_base_type. -/
def base_data_types : List Str :=
  [str "BOOL", str "SINT", str "INT", str "DINT", str "LINT", str "REAL"]

/-- Python `str.isdigit` (non-empty, all digits). -/
def isdigitStr (s : Str) : Bool := !s.isEmpty && s.all Char.isDigit

/-- Python `str.upper` (ASCII). -/
def toUpperStr (s : Str) : Str := s.map Char.toUpper

/-- L5KParser._find_base_type: resolve a dotted parameter type path through
local-tag indirection. The Python function recurses with no cycle guard;
the fuel argument only makes the recursion well-founded in Lean: `none`
means the fuel ran out, i.e. the source recursion would still be running. -/
def find_base_type (proj : L5KProject) : Nat → Str → AOI → Option Str
  | 0, _, _ => none
  | fuel + 1, path, context_aoi =>
    if base_data_types.contains path then some path
    else if !(path.contains '.') then some path
    else
      let root_name := path.takeWhile (fun c => !(c == '.'))
      let member_name := (path.dropWhile (fun c => !(c == '.'))).tail
      match dictGet context_aoi.localtags root_name with
      | none => some path
      | some lt =>
        let word_dt := toUpperStr lt.data_type
        if isdigitStr member_name &&
           (word_dt == str "SINT" || word_dt == str "INT" ||
            word_dt == str "DINT" || word_dt == str "LINT") then
          some (str "BOOL")
        else
          match dictGet proj.aois lt.data_type with
          | none => some path
          | some parent =>
            match dictGet parent.parameters member_name with
            | none => some path
            | some p => find_base_type proj fuel p.data_type parent

/-- The first-line declarator rewrite of _resolve_nested_types:
`re.sub(r'^(\s*<name>)\s+(?:OF\s+[\w.]+|:\s*[\w.]+)', r'\1 : <base>', first)`
(at most one anchored match). -/
def rewrite_first_line (pname base first : Str) : Str :=
  let ws := first.takeWhile isPyWS
  match lit pname (first.drop ws.length) with
  | none => first
  | some r2 =>
    match r2 with
    | c :: t =>
      if isPyWS c then
        let r3 := dropWS t
        let tryOFb : Option Str :=
          (lit (str "OF") r3).bind fun r4 =>
            match r4 with
            | d :: t2 =>
              if isPyWS d then
                let r5 := dropWS t2
                match r5 with
                | e :: t3 =>
                  if isWordChar e || e == '.' then
                    some (t3.dropWhile (fun x => isWordChar x || x == '.'))
                  else none
                | [] => none
              else none
            | [] => none
        let tryColon : Option Str :=
          match r3 with
          | d :: t2 =>
            if d == ':' then
              let r5 := dropWS t2
              match r5 with
              | e :: t3 =>
                if isWordChar e || e == '.' then
                  some (t3.dropWhile (fun x => isWordChar x || x == '.'))
                else none
              | [] => none
            else none
          | [] => none
        match tryOFb <|> tryColon with
        | some rest => ws ++ pname ++ str " : " ++ base ++ rest
        | none => first
      else first
    | [] => first

/-- The body of the parameter loop in _resolve_nested_types for one
parameter of one instruction definition; threads the mutated parser state
(`none` propagates fuel exhaustion of the unguarded recursion). -/
def resolve_param (fuel : Nat) (pr : ParserSt) (aoi_name pname : Str) :
    Option ParserSt :=
  match dictGet pr.project.aois aoi_name with
  | none => some pr
  | some aoi =>
    match dictGet aoi.parameters pname with
    | none => some pr
    | some param =>
      let original_type := param.data_type
      if original_type.contains '.' then
        match find_base_type pr.project fuel original_type aoi with
        | none => none
        | some base_type =>
          if !base_type.isEmpty && !(base_type == original_type) then
            let param1 := { param with data_type := base_type, is_corrected := true }
            let param2 :=
              match param1.definition with
              | some d =>
                if !d.isEmpty then
                  match splitlinesPy d with
                  | [] => param1
                  | l0 :: restLines =>
                    let d' := joinNL (rewrite_first_line pname base_type l0 :: restLines)
                    { param1 with definition := some d' }
                else param1
              | none => param1
            let updAoi := fun (a : AOI) =>
              { a with parameters := dictInsert a.parameters pname param2 }
            let proj' := { pr.project with
              aois := dictUpdate pr.project.aois aoi_name updAoi }
            let entry := str "Corrected " ++ aoi.name ++ str "." ++ param.name ++
              str ": from " ++ [dquote] ++ original_type ++ [dquote] ++
              str " to " ++ [dquote] ++ base_type ++ [dquote]
            some { pr with project := proj',
                           corrected_tags_log := pr.corrected_tags_log ++ [entry] }
          else some pr
      else some pr

/-- L5KParser._resolve_nested_types: visit every instruction definition in
insertion order and every parameter in insertion order. -/
def resolve_nested_types (fuel : Nat) (pr : ParserSt) : Option ParserSt :=
  (dictKeys pr.project.aois).foldlM
    (fun (cur : ParserSt) (aoi_name : Str) =>
      let pnames := match dictGet cur.project.aois aoi_name with
        | some aoi => dictKeys aoi.parameters
        | none => []
      pnames.foldlM (fun c pname => resolve_param fuel c aoi_name pname) cur)
    pr

/-- L5KParser.parse: header pass, structural pass, resolution pass; the
result is the final parser state (project and correction log), or `none`
when the resolver's unguarded recursion never returns. -/
def l5k_parse (fuel : Nat) (content : Str) : Option ParserSt :=
  resolve_nested_types fuel (parse_structures (parse_header (mkParser content)))

/-! ## Whitelist exporter (exporter.export_whitelist) -/

/-- l5k_types.SelectionDict (sets as lists; membership is all that the
exporter uses). -/
structure SelectionDict where
  udts : List Str := []
  udt_members : Dct (List Str) := []
  aois : List Str := []
  aoi_parameters : Dct (List Str) := []
  aoi_localtags : Dct (List Str) := []
  tags : List Str := []
  program_tags : Dct (List Str) := []

/-- L5KParser._ensure_header_for_export. -/
def ensure_header_for_export (pr : ParserSt) : ParserSt :=
  if !pr.header_text.isEmpty then pr
  else
    match pr.project.header with
    | some c => if !c.isEmpty then { pr with header_text := c } else parse_header pr
    | none => parse_header pr

/-- L5KParser._ensure_controller_header. -/
def ensure_controller_header (pr : ParserSt) : ParserSt :=
  if !pr.controller_header_lines.isEmpty then pr
  else
    match List.findIdx? (fun ln => startsWith (stripWS ln) (str "CONTROLLER")) pr.lines with
    | none => pr
    | some idx =>
      let (hdr, _, cname) := capture_controller_header pr.lines idx
      { pr with controller_header_lines := hdr, controller_name := cname }

/-- L5KParser._render_program_header_line. -/
def render_program_header_line (pg : Program) (indent : Str) : Str :=
  if !(stripWS pg.description).isEmpty then
    indent ++ str "PROGRAM " ++ pg.name ++ str " (Description := " ++ [dquote] ++
      encode_l5k_string pg.description ++ [dquote] ++ str ")"
  else indent ++ str "PROGRAM " ++ pg.name

/-- The one-tab indent used by the whitelist exporter. -/
def wlIndent : Str := [tabChar]

/-- Python `selection_map.get(name, set())`. -/
def selGet (m : Dct (List Str)) (k : Str) : List Str :=
  match dictGet m k with
  | some s => s
  | none => []

/-- One parameter line group of the PARAMETERS section. -/
def wlParamStep (sel_params : List Str) (a : List Str) (q : Str × AOIParameter) :
    List Str :=
  if sel_params.contains q.1 then a ++ q.2.to_l5k 3 wlIndent else a

/-- One local-tag line group of the LOCAL_TAGS section (the counter tracks
`emitted_local`). -/
def wlLocalStep (sel_locals : List Str) (ae : List Str × Nat) (q : Str × AOILocalTag) :
    List Str × Nat :=
  if sel_locals.contains q.1 then (ae.1 ++ q.2.to_l5k 3 wlIndent, ae.2 + 1) else ae

/-- One tag line group of a TAG block. -/
def wlTagEmit (sel_tags : List Str) (level : Nat) (a : List Str) (q : Str × Tag) :
    List Str :=
  if sel_tags.contains q.1 then a ++ q.2.to_l5k level wlIndent else a

/-- The UDT step of export_whitelist: a type definition is rendered only
when its name is in the container selection set. -/
def wlUDTStep (selection : SelectionDict) (acc : List Str) (p : Str × UDT) :
    List Str :=
  if selection.udts.contains p.1 then acc ++ p.2.to_l5k wlIndent ++ [[]] else acc

/-- The AOI header line emitted by export_whitelist. -/
def wlAOIHeader (name : Str) (aoi : AOI) : Str :=
  if !(stripWS aoi.description).isEmpty then
    wlIndent ++ (str "ADD_ON_INSTRUCTION_DEFINITION " ++ (name ++
      (str " (Description := " ++ ([dquote] ++
      (encode_l5k_string aoi.description ++ ([dquote] ++ str ")"))))))
  else
    wlIndent ++ (str "ADD_ON_INSTRUCTION_DEFINITION " ++ (name ++ str " ()"))

/-- The AOI step of export_whitelist: an instruction definition is rendered
whenever its own selection entry or a selected parameter or local tag
touches it. -/
def wlAOIStep (selection : SelectionDict) (acc : List Str) (p : Str × AOI) :
    List Str :=
  let name := p.1
  let aoi := p.2
  let sel_params := selGet selection.aoi_parameters name
  let sel_locals := selGet selection.aoi_localtags name
  if !(selection.aois.contains name) && sel_params.isEmpty && sel_locals.isEmpty then
    acc
  else
    let acc := acc ++ [wlAOIHeader name aoi]
    let acc :=
      if !sel_params.isEmpty then
        (aoi.parameters.foldl (wlParamStep sel_params)
          (acc ++ [repStr wlIndent 2 ++ str "PARAMETERS"]))
        ++ [repStr wlIndent 2 ++ str "END_PARAMETERS", []]
      else acc
    let acc := acc ++ [repStr wlIndent 2 ++ str "LOCAL_TAGS"]
    let accEmitted := aoi.localtags.foldl (wlLocalStep sel_locals) (acc, 0)
    let acc := accEmitted.1
    let acc :=
      if accEmitted.2 == 0 && selection.aois.contains name then
        acc ++ [repStr wlIndent 3 ++ str "__PlaceHolder : BOOL (Description := " ++
          [dquote] ++ str "Required for AVEVA Edge" ++ [dquote] ++ str ");"]
      else acc
    acc ++ [repStr wlIndent 2 ++ str "END_LOCAL_TAGS", [],
            wlIndent ++ str "END_ADD_ON_INSTRUCTION_DEFINITION", []]

/-- The program step of export_whitelist: one PROGRAM/TAG block per program
with any selected tag. -/
def wlProgStep (selection : SelectionDict) (acc : List Str) (p : Str × Program) :
    List Str :=
  let sel_prog_tags := selGet selection.program_tags p.1
  if sel_prog_tags.isEmpty then acc
  else
    let acc := acc ++ [render_program_header_line p.2 wlIndent,
                       repStr wlIndent 2 ++ str "TAG"]
    let acc := p.2.tags.foldl (wlTagEmit sel_prog_tags 3) acc
    acc ++ [repStr wlIndent 2 ++ str "END_TAG", wlIndent ++ str "END_PROGRAM", []]

/-- exporter.export_whitelist: header, controller header, selected UDTs,
instruction definitions touched by the selection, selected controller tags,
program tag blocks, closing marker. -/
def export_whitelist (pr0 : ParserSt) (selection : SelectionDict) : Str :=
  let pr := ensure_controller_header (ensure_header_for_export pr0)
  let hdr_blob :=
    if !pr.header_text.isEmpty then pr.header_text
    else match pr.project.header with
      | some c => c
      | none => []
  let out : List Str := []
  let out := if !hdr_blob.isEmpty then out ++ [rstripChar nlChar hdr_blob, []] else out
  let out :=
    if !pr.controller_header_lines.isEmpty then out ++ pr.controller_header_lines
    else
      let cname := match pr.controller_name with
        | some c => if c.isEmpty then str "Controller" else c
        | none => str "Controller"
      out ++ [str "CONTROLLER " ++ cname]
  -- UDTs: only those in the container selection set
  let out := pr.project.udts.foldl (wlUDTStep selection) out
  -- AOIs: any selection touching the instruction includes it
  let out := pr.project.aois.foldl (wlAOIStep selection) out
  -- Controller TAG block only when a global tag is selected
  let out :=
    if !selection.tags.isEmpty then
      (pr.project.tags.foldl (wlTagEmit selection.tags 2)
        (out ++ [wlIndent ++ str "TAG"]))
      ++ [wlIndent ++ str "END_TAG", []]
    else out
  -- Program TAG blocks
  let out := pr.project.programs.foldl (wlProgStep selection) out
  joinNL (out ++ [str "END_CONTROLLER", []])

/-! ## Concrete instances used by the claims -/

/-- The Inner instruction's parameter `P OF Word.3`. -/
def innerP : AOIParameter :=
  { name := str "P", data_type := str "Word.3", description := [],
    definition := some (str "P OF Word.3 (Description := \"inner param\");") }

/-- The Inner instruction's local tag `Word : DINT`. -/
def innerW : AOILocalTag := { name := str "Word", data_type := str "DINT" }

/-- Instruction definition Inner of the resolution scenario. -/
def innerAOI : AOI :=
  { name := str "Inner", parameters := [(str "P", innerP)],
    localtags := [(str "Word", innerW)] }

/-- The Outer instruction's parameter `Alias OF InnerInst.P`. -/
def outerP : AOIParameter :=
  { name := str "Alias", data_type := str "InnerInst.P", description := [],
    definition := some (str "Alias OF InnerInst.P ();") }

/-- The Outer instruction's local tag `InnerInst : Inner`. -/
def outerL : AOILocalTag := { name := str "InnerInst", data_type := str "Inner" }

/-- Instruction definition Outer of the resolution scenario. -/
def outerAOI : AOI :=
  { name := str "Outer", parameters := [(str "Alias", outerP)],
    localtags := [(str "InnerInst", outerL)] }

/-- Parser state holding the Inner/Outer model of the scenario. -/
def c1pr : ParserSt :=
  { lines := [], project := { aois := [(str "Inner", innerAOI), (str "Outer", outerAOI)] },
    corrected_tags_log := [], controller_name := none,
    controller_header_lines := [], header_text := [] }

/-- A model on which resolution is not idempotent: A.P resolves through
L : B to B.Q's still-dotted type X.3, which only the second pass resolves
against A's local tag X : DINT. -/
def aoiA : AOI :=
  { name := str "A",
    parameters := [(str "P", { name := str "P", data_type := str "L.Q" })],
    localtags := [(str "L", { name := str "L", data_type := str "B" }),
                  (str "X", { name := str "X", data_type := str "DINT" })] }

/-- The partner instruction of the non-idempotence model. -/
def aoiB : AOI :=
  { name := str "B",
    parameters := [(str "Q", { name := str "Q", data_type := str "X.3" })],
    localtags := [] }

/-- Parser state for the non-idempotence model. -/
def c5pr : ParserSt :=
  { lines := [], project := { aois := [(str "A", aoiA), (str "B", aoiB)] },
    corrected_tags_log := [], controller_name := none,
    controller_header_lines := [], header_text := [] }

/-- An input whose two instruction definitions reference each other's
parameters circularly through local tags. -/
def c2text : Str := str
  "CONTROLLER C\nADD_ON_INSTRUCTION_DEFINITION AAA ()\nPARAMETERS\nP OF L.Q ();\nEND_PARAMETERS\nLOCAL_TAGS\nL : BBB ();\nEND_LOCAL_TAGS\nEND_ADD_ON_INSTRUCTION_DEFINITION\nADD_ON_INSTRUCTION_DEFINITION BBB ()\nPARAMETERS\nQ OF M.P ();\nEND_PARAMETERS\nLOCAL_TAGS\nM : AAA ();\nEND_LOCAL_TAGS\nEND_ADD_ON_INSTRUCTION_DEFINITION\nEND_CONTROLLER\n"

/-- The structural parse of the circular input (the resolution pass has not
run on it). -/
def c2structural : ParserSt := parse_structures (parse_header (mkParser c2text))

/-- The AAA instruction as parsed from the circular input. -/
def c2aoiA : AOI := (dictGet c2structural.project.aois (str "AAA")).getD { name := [] }

/-- The BBB instruction as parsed from the circular input. -/
def c2aoiB : AOI := (dictGet c2structural.project.aois (str "BBB")).getD { name := [] }

/-- A structurally ambiguous input: an unmatched header-open delimiter (no
closing delimiter line) and an unterminated DATATYPE block. -/
def c6goodtext : Str := str "(*********\nsome header text\nDATATYPE Foo ()\nDINT M;\n"

/-- A DATATYPE whose header line has unbalanced parentheses. -/
def c6badtext : Str := str "DATATYPE Bar ((Description := \"d\")\nDINT M;\nEND_DATATYPE\n"

/-- The hidden-word / bit-alias scenario input. -/
def c8text : Str := str
  "DATATYPE T ()\nSINT ZZZZZZZZZZHidden (Radix := Decimal);\nBIT A ZZZZZZZZZZHidden : 0;\nBIT B ZZZZZZZZZZHidden : 1;\nEND_DATATYPE\n"

/-- A type definition in which a later member line redefines the word that
an earlier bit alias points at. -/
def c8badtext : Str := str "DATATYPE T ()\nBIT A W : 0;\nDINT W;\nEND_DATATYPE\n"

/-- A type definition in which the word a bit alias points at was declared
earlier by a plain member line. -/
def c8plaintext : Str := str "DATATYPE T ()\nDINT W;\nBIT A W : 0;\nEND_DATATYPE\n"

/-- An empty type definition used to exercise the bit-alias branch
directly. -/
def c8u0 : UDT := { name := str "T" }

/-- Attribute list with DefaultData leading. -/
def c4lead : Str := str "P : DINT (DefaultData := 123, Description := \"keep me\");"

/-- Attribute list with DefaultData trailing. -/
def c4trail : Str := str "P : DINT (Description := \"keep me\", DefaultData := 123);"

/-- Attribute list with DefaultData as the only attribute. -/
def c4sole : Str := str "P : DINT (DefaultData := 123);"

/-- A definition whose Description string itself contains text shaped like
a DefaultData assignment. -/
def c4quoted : Str :=
  str "P : DINT (Description := \"x, DefaultData := 2, y\", DefaultData := 3);"

/-- A definition whose DefaultData assignment is written in upper case
only, so the exact-case guard substring is absent. -/
def c4upper : Str := str "P : DINT (DEFAULTDATA := 123, Description := \"keep me\");"

/-- A definition carrying one exact-case and one upper-case DefaultData
assignment. -/
def c4mixed : Str := str "P : DINT (DefaultData := 1, DEFAULTDATA := 2);"

/-- The model for the whitelist-export claim: a type definition U with
member M and an instruction AOIX with parameter PX. -/
def c3m : UDTMember :=
  UDTMember.mk (str "M") (str "DINT") [] (some (str "DINT M;"))
    false false none none [] []

/-- Type definition U. -/
def c3udt : UDT := { name := str "U", members := [(str "M", c3m)] }

/-- Instruction definition AOIX. -/
def c3aoi : AOI :=
  { name := str "AOIX",
    parameters := [(str "PX", { name := str "PX", data_type := str "DINT" })] }

/-- Parser state holding U and AOIX. -/
def c3pr : ParserSt :=
  { lines := [], project := { udts := [(str "U", c3udt)], aois := [(str "AOIX", c3aoi)] },
    corrected_tags_log := [], controller_name := none,
    controller_header_lines := [], header_text := [] }

/-- A selection that picks member M of U and parameter PX of AOIX but
neither container. -/
def c3sel : SelectionDict :=
  { udt_members := [(str "U", [str "M"])],
    aoi_parameters := [(str "AOIX", [str "PX"])] }

/-! ## Claim theorems (concrete, evaluated) -/

/-- C1: on the model with instruction Inner (parameter P of declared type
"Word.3", local tag Word : DINT) and instruction Outer (parameter Alias of
declared type "InnerInst.P", local tag InnerInst : Inner), the resolution
pass rewrites both parameters' data_type to "BOOL" and appends exactly one
correction-log entry mentioning Inner.P and one mentioning Outer.Alias, in
visit order. -/
theorem C1_dotted_path_resolution :
    (resolve_nested_types 10 c1pr).map (fun pr =>
      ((dictGet pr.project.aois (str "Inner")).bind
         (fun a => (dictGet a.parameters (str "P")).map (fun p => p.data_type)),
       (dictGet pr.project.aois (str "Outer")).bind
         (fun a => (dictGet a.parameters (str "Alias")).map (fun p => p.data_type)),
       pr.corrected_tags_log))
    = some (some (str "BOOL"), some (str "BOOL"),
        [str "Corrected Inner.P: from \"Word.3\" to \"BOOL\"",
         str "Corrected Outer.Alias: from \"InnerInst.P\" to \"BOOL\""])
    ∧ containsSubstr (str "Corrected Inner.P: from \"Word.3\" to \"BOOL\"")
        (str "Inner.P") = true
    ∧ containsSubstr (str "Corrected Outer.Alias: from \"InnerInst.P\" to \"BOOL\"")
        (str "Outer.Alias") = true := by decide

/-- C4 counterexample, two independent failures of the claim. First,
attribute stripping is not case-insensitive as claimed: on a definition
whose assignment is written `DEFAULTDATA := 123` (matching the names
case-insensitively) the definition is returned entirely unchanged, the
assignment still present, because the early-return guard checks the
exact-case substring. Second, on a definition whose Description string
itself contains text shaped like `, DefaultData := 2`, the stripping
regexes also delete that text inside the quoted Description value, so the
claim's "while retaining all other attributes such as Description" fails
too (the Description changes from `x, DefaultData := 2, y` to `x, y`). -/
theorem C4_counterexample :
    strip_attrs c4upper = c4upper
    ∧ containsSubstr (strip_attrs c4upper) (str "DEFAULTDATA") = true
    ∧ strip_attrs c4quoted = str "P : DINT (Description := \"x, y\");"
    ∧ get_desc c4quoted = str "x, DefaultData := 2, y"
    ∧ get_desc (strip_attrs c4quoted) = str "x, y" := by decide

/-- C4 amended: strip_attrs acts only on definitions containing the
exact-case substring DefaultData — every definition without that exact
substring is returned unchanged (the guard, proved for all inputs) — while
once the guard passes the removal regexes themselves match
case-insensitively (a mixed-case pair is removed entirely); on the spec's
three positional variants (leading, trailing, sole, with quoted values
free of assignment-shaped text) the assignment is removed and Description
retained. -/
theorem C4_amended_strip_positions :
    (∀ d : Str, containsSubstr d (str "DefaultData") = false → strip_attrs d = d)
    ∧ containsSubstr c4upper (str "DefaultData") = false
    ∧ strip_attrs c4mixed = str "P : DINT ();"
    ∧ strip_attrs c4lead = str "P : DINT (Description := \"keep me\");"
    ∧ strip_attrs c4trail = str "P : DINT (Description := \"keep me\");"
    ∧ strip_attrs c4sole = str "P : DINT ();"
    ∧ containsSubstr (strip_attrs c4lead) (str "DefaultData") = false
    ∧ containsSubstr (strip_attrs c4trail) (str "DefaultData") = false
    ∧ containsSubstr (strip_attrs c4sole) (str "DefaultData") = false
    ∧ get_desc (strip_attrs c4lead) = str "keep me"
    ∧ get_desc (strip_attrs c4trail) = str "keep me" := by
  refine ⟨?_, by decide⟩
  intro d hd
  unfold strip_attrs
  rw [hd]
  simp

/-- C4 witness: the guard clause of the amended theorem applied at a
concrete definition lacking the exact-case substring. -/
theorem C4_amended_strip_positions_witness :
    containsSubstr (str "P : DINT (DEFAULTDATA := 9);") (str "DefaultData") = false
    ∧ strip_attrs (str "P : DINT (DEFAULTDATA := 9);")
        = str "P : DINT (DEFAULTDATA := 9);" :=
  ⟨by decide,
   C4_amended_strip_positions.1 (str "P : DINT (DEFAULTDATA := 9);") (by decide)⟩

/-- C6 counterexample: a DATATYPE block header with unbalanced parentheses is
a structural parse ambiguity for which the parser DOES append an entry to
the log returned alongside the model ("Unballanced parens in header starting
at line 1"), contradicting "appends no entry for the ambiguity". -/
theorem C6_counterexample :
    (l5k_parse 10 c6badtext).map (fun pr => pr.corrected_tags_log)
      = some [str "Unballanced parens in header starting at line 1"] := by decide

/-- C6 amended: unmatched header delimiters and unterminated blocks are
tolerated by best-effort boundary inference with no log entry (the model is
still built), but a block header with unbalanced parentheses appends a
diagnostic entry to the log while still parsing the block. -/
theorem C6_structural_tolerance :
    (l5k_parse 10 c6goodtext).map (fun pr =>
        (pr.corrected_tags_log, dictContains pr.project.udts (str "Foo"),
         (dictGet pr.project.udts (str "Foo")).map (fun u => dictKeys u.members)))
      = some ([], true, some [str "M"])
    ∧ (l5k_parse 10 c6badtext).map (fun pr =>
        (pr.corrected_tags_log, dictContains pr.project.udts (str "Bar")))
      = some ([str "Unballanced parens in header starting at line 1"], true) := by decide

/-- C8 counterexample, two independent failures of the claimed invariant.
First, when `BIT A W : 0;` is followed by `DINT W;`, the later type-first
line replaces the hidden parent W, so after parsing the bit member A's
parent_word resolves to a member that is NOT flagged is_hidden_parent and
whose children collection is empty. Second, when `DINT W;` declares W
before `BIT A W : 0;`, the bit member is attached to W's children but W is
never flagged is_hidden_parent (the flag is set only on a freshly created
placeholder), so the "flagged is_hidden_parent" part of the invariant
fails even with no later redefinition. -/
theorem C8_counterexample :
    ((parse_structures (parse_header (mkParser c8badtext))).project.udts.map
      (fun p => (dictKeys p.2.members,
        (dictGet p.2.members (str "A")).map
          (fun m => (m.is_bit, m.parent_word)))))
      = [([str "A", str "W"], some (true, some (str "W")))]
    ∧ ((parse_structures (parse_header (mkParser c8badtext))).project.udts.map
      (fun p => (dictGet p.2.members (str "W")).map
          (fun m => (m.is_hidden_parent, m.data_type, dictKeys m.children))))
      = [some (false, str "DINT", [])]
    ∧ ((parse_structures (parse_header (mkParser c8plaintext))).project.udts.map
      (fun p => (dictGet p.2.members (str "A")).map
          (fun m => (m.is_bit, m.parent_word))))
      = [some (true, some (str "W"))]
    ∧ ((parse_structures (parse_header (mkParser c8plaintext))).project.udts.map
      (fun p => (dictGet p.2.members (str "W")).map
          (fun m => (m.is_hidden_parent, m.data_type, dictKeys m.children))))
      = [some (false, str "DINT", [str "A"])] := by
  exact ⟨by decide, by decide, by decide, by decide⟩

/-- C3 counterexample: with type definition U present in the model, a
selection whose selected-member map has U mapped to the non-empty member set
containing M but whose container selection set omits U, the whitelist export
renders no DATATYPE block at all: the type definition is not included, in
contradiction with the claim. -/
theorem C3_counterexample :
    dictGet c3sel.udt_members (str "U") = some [str "M"]
    ∧ c3sel.udts = []
    ∧ dictContains c3pr.project.udts (str "U") = true
    ∧ containsSubstr (export_whitelist c3pr c3sel) (str "DATATYPE") = false := by decide

/-! ## C7: the escaping round trip -/

/-- replace_char distributes over append. -/
theorem replace_char_append (c : Char) (r : Str) (a b : Str) :
    replace_char c r (a ++ b) = replace_char c r a ++ replace_char c r b := by
  induction a with
  | nil => simp [replace_char]
  | cons x t ih => simp [replace_char, ih]

/-- encode_l5k_string distributes over append. -/
theorem encode_append (a b : Str) :
    encode_l5k_string (a ++ b) = encode_l5k_string a ++ encode_l5k_string b := by
  simp [encode_l5k_string, replace_char_append]

/-- encode_l5k_string on a cons splits into the single-character encoding
and the encoding of the rest. -/
theorem encode_cons (x : Char) (t : Str) :
    encode_l5k_string (x :: t) = encode_l5k_string [x] ++ encode_l5k_string t := by
  have h : x :: t = [x] ++ t := rfl
  rw [h, encode_append]

/-- Decoding a `$`-escape pair. -/
theorem decode_dollar (e : Char) (l : Str) :
    decode_l5k_spec ('$' :: e :: l) = decodeEsc e :: decode_l5k_spec l := rfl

/-- Decoding an unescaped character. -/
theorem decode_plain (x : Char) (l : Str) (h : (x == '$') = false) :
    decode_l5k_spec (x :: l) = x :: decode_l5k_spec l := by
  conv_lhs => unfold decode_l5k_spec
  simp [h]

/-- A character needing no escape is left unchanged by the encoder. -/
theorem encode_single_plain (x : Char) (h1 : (x == '$') = false)
    (h2 : (x == dquote) = false) (h3 : (x == squote) = false)
    (h4 : (x == crChar) = false) (h5 : (x == nlChar) = false) :
    encode_l5k_string [x] = [x] := by
  simp [encode_l5k_string, replace_char, h1, h2, h3, h4, h5]

/-- C7: the string-escaping encoder is invertible: decoding the output of
encode_l5k_string under the format's escape convention ($$ to $, $" to ",
$' to ', $R to CR, $N to LF) yields the original string back, for every
string, including any combination of '$', '"', ''', CR and LF. -/
theorem C7_escaping_roundtrip (s : Str) :
    decode_l5k_spec (encode_l5k_string s) = s := by
  induction s with
  | nil => rfl
  | cons x t ih =>
    rw [encode_cons]
    by_cases h1 : x = '$'
    · subst h1
      rw [show encode_l5k_string ['$'] = ['$', '$'] from by decide]
      show decode_l5k_spec ('$' :: '$' :: encode_l5k_string t) = '$' :: t
      rw [decode_dollar, show decodeEsc '$' = '$' from by decide, ih]
    · by_cases h2 : x = dquote
      · subst h2
        rw [show encode_l5k_string [dquote] = ['$', dquote] from by decide]
        show decode_l5k_spec ('$' :: dquote :: encode_l5k_string t) = dquote :: t
        rw [decode_dollar, show decodeEsc dquote = dquote from by decide, ih]
      · by_cases h3 : x = squote
        · subst h3
          rw [show encode_l5k_string [squote] = ['$', squote] from by decide]
          show decode_l5k_spec ('$' :: squote :: encode_l5k_string t) = squote :: t
          rw [decode_dollar, show decodeEsc squote = squote from by decide, ih]
        · by_cases h4 : x = crChar
          · subst h4
            rw [show encode_l5k_string [crChar] = ['$', 'R'] from by decide]
            show decode_l5k_spec ('$' :: 'R' :: encode_l5k_string t) = crChar :: t
            rw [decode_dollar, show decodeEsc 'R' = crChar from by decide, ih]
          · by_cases h5 : x = nlChar
            · subst h5
              rw [show encode_l5k_string [nlChar] = ['$', 'N'] from by decide]
              show decode_l5k_spec ('$' :: 'N' :: encode_l5k_string t) = nlChar :: t
              rw [decode_dollar, show decodeEsc 'N' = nlChar from by decide, ih]
            · rw [encode_single_plain x (beq_eq_false_iff_ne.mpr h1)
                    (beq_eq_false_iff_ne.mpr h2) (beq_eq_false_iff_ne.mpr h3)
                    (beq_eq_false_iff_ne.mpr h4) (beq_eq_false_iff_ne.mpr h5)]
              show decode_l5k_spec (x :: encode_l5k_string t) = x :: t
              rw [decode_plain x _ (beq_eq_false_iff_ne.mpr h1), ih]

/-! ## C9: depth safety of first_outside_parens -/

/-- The scan state distributes over a cons at the head of the scanned list. -/
theorem scanList_cons (st : ScanSt) (c : Char) (l : Str) :
    scanList st (c :: l) = scanList (scanChar st c) l := rfl

/-- Invariant of the fopGo worker: a returned index lies within the scanned
suffix and the scanner state accumulated up to it has depth zero and no
active quote flag. -/
theorem fopGo_spec (target : Str) :
    ∀ (cs : Str) (st : ScanSt) (i j : Nat),
      fopGo target st i cs = some j →
      i ≤ j ∧ j - i ≤ cs.length ∧
      (scanList st (cs.take (j - i))).depth = 0 ∧
      (scanList st (cs.take (j - i))).in_sq = false ∧
      (scanList st (cs.take (j - i))).in_dq = false := by
  intro cs
  induction cs with
  | nil => intro st i j h; simp [fopGo] at h
  | cons c rest ih =>
    intro st i j h
    unfold fopGo at h
    by_cases hc : (scanPlain st c && st.depth == 0 && target.isPrefixOf (c :: rest)) = true
    · rw [if_pos hc] at h
      injection h with h'
      subst h'
      simp only [Nat.sub_self, List.take_zero]
      have hplain : scanPlain st c = true := by
        have := (Bool.and_eq_true _ _).mp ((Bool.and_eq_true _ _).mp hc).1
        exact this.1
      have hdepth : (st.depth == 0) = true := by
        have := (Bool.and_eq_true _ _).mp ((Bool.and_eq_true _ _).mp hc).1
        exact this.2
      have hsq : st.in_sq = false := by
        have h1 := (Bool.and_eq_true _ _).mp hplain
        have h2 := (Bool.and_eq_true _ _).mp h1.1
        have h3 := (Bool.and_eq_true _ _).mp h2.1
        have h4 := (Bool.and_eq_true _ _).mp h3.1
        have h5 := (Bool.and_eq_true _ _).mp h4.1
        simpa using h5.1
      have hdq : st.in_dq = false := by
        have h1 := (Bool.and_eq_true _ _).mp hplain
        have h2 := (Bool.and_eq_true _ _).mp h1.1
        have h3 := (Bool.and_eq_true _ _).mp h2.1
        have h4 := (Bool.and_eq_true _ _).mp h3.1
        have h5 := (Bool.and_eq_true _ _).mp h4.1
        simpa using h5.2
      refine ⟨Nat.le_refl i, Nat.zero_le _, ?_, hsq, hdq⟩
      show st.depth = 0
      simpa using hdepth
    · rw [if_neg hc] at h
      obtain ⟨h1, h2, h3, h4, h5⟩ := ih (scanChar st c) (i + 1) j h
      have hij : i + 1 ≤ j := h1
      have hk : j - i = (j - (i + 1)) + 1 := by omega
      have htake : (c :: rest).take (j - i) = c :: rest.take (j - (i + 1)) := by
        rw [hk]; rfl
      refine ⟨by omega, ?_, ?_, ?_, ?_⟩
      · simpa using by omega
      · rw [htake, scanList_cons]; exact h3
      · rw [htake, scanList_cons]; exact h4
      · rw [htake, scanList_cons]; exact h5

/-- C9: whenever first_outside_parens returns an index, that index is not
inside a single- or double-quoted region and not inside any nested
parenthesis/bracket/brace group: the scanner state accumulated over the
prefix before the index has depth zero (unmatched closers having been
clamped at zero) and both quote flags off, for balanced and unbalanced
inputs alike. -/
theorem C9_depth_safety (s target : Str) (i : Nat)
    (h : first_outside_parens s target = some i) :
    i ≤ s.length ∧
    (scanList scanInit (s.take i)).depth = 0 ∧
    (scanList scanInit (s.take i)).in_sq = false ∧
    (scanList scanInit (s.take i)).in_dq = false := by
  obtain ⟨h1, h2, h3, h4, h5⟩ := fopGo_spec target s scanInit 0 i h
  simpa using ⟨h2, h3, h4, h5⟩

/-- C9 witness: on the unbalanced input `)a(b);x` the scanner finds the
top-level ';' at index 5, whose prefix state has depth zero and no quotes. -/
theorem C9_depth_safety_witness :
    first_outside_parens (str ")a(b);x") (str ";") = some 5 ∧
    5 ≤ (str ")a(b);x").length ∧
    (scanList scanInit ((str ")a(b);x").take 5)).depth = 0 ∧
    (scanList scanInit ((str ")a(b);x").take 5)).in_sq = false ∧
    (scanList scanInit ((str ")a(b);x").take 5)).in_dq = false := by
  have h : first_outside_parens (str ")a(b);x") (str ";") = some 5 := by decide
  obtain ⟨h1, h2, h3, h4⟩ := C9_depth_safety (str ")a(b);x") (str ";") 5 h
  exact ⟨h, h1, h2, h3, h4⟩

/-! ## C10: uniqueness and order stability of the mapping collections -/

/-- Inserting at an existing key keeps the key sequence unchanged. -/
theorem dictInsert_keys_of_mem {α : Type} :
    ∀ (d : Dct α) (k : Str) (v : α), dictContains d k = true →
      dictKeys (dictInsert d k v) = dictKeys d := by
  intro d
  induction d with
  | nil => intro k v h; simp [dictContains, dictGet] at h
  | cons p rest ih =>
    intro k v h
    obtain ⟨k', v'⟩ := p
    by_cases hk : (k' == k) = true
    · simp [dictInsert, hk, dictKeys]
    · have h' : dictContains rest k = true := by
        simpa [dictContains, dictGet, hk] using h
      simp [dictInsert, hk, dictKeys] at *
      exact ih k v h'

/-- Looking up the inserted key returns the new value. -/
theorem dictInsert_get_self {α : Type} :
    ∀ (d : Dct α) (k : Str) (v : α), dictGet (dictInsert d k v) k = some v := by
  intro d
  induction d with
  | nil => intro k v; simp [dictInsert, dictGet]
  | cons p rest ih =>
    intro k v
    obtain ⟨k', v'⟩ := p
    by_cases hk : (k' == k) = true
    · simp [dictInsert, hk, dictGet]
    · simp [dictInsert, hk, dictGet]
      exact ih k v

/-- C10: every model mapping collection keeps keys unique under repeated
insertion: writing an entity whose name equals an existing key replaces the
stored entity in place — the key sequence (iteration order) is unchanged, so
no duplicate entry appears and the key keeps its position — and lookup
returns the new entity; UDT.add_member, AOI.add_parameter and
AOI.add_localtag are exactly this dict-assignment on their mappings (global
tags, program tags and programs are written through the same dictInsert). -/
theorem C10_mapping_key_stability {α : Type} (d : Dct α) (k : Str) (v : α)
    (hk : dictContains d k = true) (hnd : (dictKeys d).Nodup) :
    dictKeys (dictInsert d k v) = dictKeys d
    ∧ (dictKeys (dictInsert d k v)).Nodup
    ∧ dictGet (dictInsert d k v) k = some v
    ∧ (∀ (u : UDT) (m : UDTMember),
        (u.add_member m).members = dictInsert u.members m.name m)
    ∧ (∀ (a : AOI) (p : AOIParameter),
        (a.add_parameter p).parameters = dictInsert a.parameters p.name p)
    ∧ (∀ (a : AOI) (t : AOILocalTag),
        (a.add_localtag t).localtags = dictInsert a.localtags t.name t) := by
  have hkeys := dictInsert_keys_of_mem d k v hk
  exact ⟨hkeys, hkeys ▸ hnd, dictInsert_get_self d k v,
         fun _ _ => rfl, fun _ _ => rfl, fun _ _ => rfl⟩

/-- C10 witness: replacing the value at the existing key "a" of a two-entry
map keeps the key order [a, b], stays duplicate-free, and yields the new
value on lookup. -/
theorem C10_mapping_key_stability_witness :
    dictContains [(str "a", 1), (str "b", 2)] (str "a") = true
    ∧ dictKeys (dictInsert [(str "a", 1), (str "b", 2)] (str "a") 7)
        = [str "a", str "b"]
    ∧ (dictKeys (dictInsert [(str "a", 1), (str "b", 2)] (str "a") 7)).Nodup
    ∧ dictGet (dictInsert [(str "a", 1), (str "b", 2)] (str "a") 7) (str "a")
        = some 7 := by
  have h := C10_mapping_key_stability [(str "a", 1), (str "b", 2)] (str "a") 7
    (by decide) (by decide)
  exact ⟨by decide, by rw [h.1]; decide, h.2.1, h.2.2.1⟩

/-! ## C8: what the bit-alias branch of the state machine establishes -/

/-- Inserting at one key leaves lookups at other keys unchanged. -/
theorem dictGet_insert_ne {α : Type} :
    ∀ (d : Dct α) (k k' : Str) (v : α), ¬ k = k' →
      dictGet (dictInsert d k v) k' = dictGet d k' := by
  intro d
  induction d with
  | nil =>
    intro k k' v h
    simp [dictInsert, dictGet, h]
  | cons p rest ih =>
    intro k k' v h
    obtain ⟨k0, v0⟩ := p
    by_cases hk : (k0 == k) = true
    · have hk0 : k0 = k := by simpa using hk
      simp [dictInsert, hk, dictGet, hk0, h]
    · by_cases hk' : (k0 == k') = true
      · simp [dictInsert, hk, dictGet, hk']
      · simp [dictInsert, hk, dictGet, hk', ih k k' v h]

/-- Updating at a present key rewrites the stored value through the
function. -/
theorem dictGet_update_self {α : Type} :
    ∀ (d : Dct α) (k : Str) (f : α → α) (v : α), dictGet d k = some v →
      dictGet (dictUpdate d k f) k = some (f v) := by
  intro d
  induction d with
  | nil => intro k f v h; simp [dictGet] at h
  | cons p rest ih =>
    intro k f v h
    obtain ⟨k0, v0⟩ := p
    by_cases hk : (k0 == k) = true
    · have hv : v0 = v := by simpa [dictGet, hk] using h
      simp [dictUpdate, hk, dictGet, hv]
    · have h' : dictGet rest k = some v := by simpa [dictGet, hk] using h
      simp [dictUpdate, hk, dictGet, ih k f v h']

/-- Updating at one key leaves lookups at other keys unchanged. -/
theorem dictGet_update_ne {α : Type} :
    ∀ (d : Dct α) (k k' : Str) (f : α → α), ¬ k = k' →
      dictGet (dictUpdate d k f) k' = dictGet d k' := by
  intro d
  induction d with
  | nil => intro k k' f h; simp [dictUpdate]
  | cons p rest ih =>
    intro k k' f h
    obtain ⟨k0, v0⟩ := p
    by_cases hk : (k0 == k) = true
    · have hk0 : k0 = k := by simpa using hk
      simp [dictUpdate, hk, dictGet, hk0, h]
    · by_cases hk' : (k0 == k') = true
      · simp [dictUpdate, hk, dictGet, hk']
      · simp [dictUpdate, hk, dictGet, hk', ih k k' f h]

/-- add_child stores the child in the children collection keyed by the
child's name. -/
theorem add_child_children (m c : UDTMember) :
    (m.add_child c).children = dictInsert m.children c.name c := by
  cases m; rfl

/-- add_child leaves the hidden-parent flag unchanged. -/
theorem add_child_hidden_flag (m c : UDTMember) :
    (m.add_child c).is_hidden_parent = m.is_hidden_parent := by
  cases m; rfl

/-- C8 amended: for every prior members dictionary and every bit-alias line
with distinct alias and word names, the bit-alias branch of the state
machine stores the bit member — flagged is_bit, carrying parent_word and
bit_index — and attaches it, keyed by its name, to the children of the
member named by the word; the word member's hidden-parent flag becomes
true exactly when the word was absent and a placeholder was created, and
otherwise keeps its previous value, so a word declared earlier by a plain
member line gains the child but stays unflagged (and a later member line
re-declaring the word replaces the member, dropping flag and children, as
the counterexample shows); in particular the spec scenario — a hidden
`SINT ZZZZZZZZZZHidden (...)` line followed by `BIT A ... : 0;` and
`BIT B ... : 1;` — yields exactly one member named ZZZZZZZZZZHidden,
flagged is_hidden_parent, with exactly the two children A and B, both bit
members carrying parent_word = ZZZZZZZZZZHidden. -/
theorem C8_bit_alias_attach :
    (∀ (aliasNm word : Str) (bit : Nat) (defText : Str) (u : UDT),
      ¬ aliasNm = word →
      dictGet (bit_alias_step aliasNm word bit defText u).members aliasNm
        = some (bit_alias_member aliasNm word bit defText)
      ∧ ∃ p, dictGet (bit_alias_step aliasNm word bit defText u).members word
            = some p
          ∧ dictGet p.children aliasNm
            = some (bit_alias_member aliasNm word bit defText)
          ∧ p.is_hidden_parent =
              (match dictGet u.members word with
               | none => true
               | some old => old.is_hidden_parent))
    ∧ (∀ (aliasNm word : Str) (bit : Nat) (defText : Str),
        (bit_alias_member aliasNm word bit defText).is_bit = true
        ∧ (bit_alias_member aliasNm word bit defText).parent_word = some word
        ∧ (bit_alias_member aliasNm word bit defText).bit_index = some bit)
    ∧ ((parse_structures (parse_header (mkParser c8text))).project.udts.map
        (fun p => (dictKeys p.2.members,
          ((p.2.members.filter (fun q => q.2.name == str "ZZZZZZZZZZHidden")).map
            (fun q => (q.2.is_hidden_parent, dictKeys q.2.children))))))
        = [([str "ZZZZZZZZZZHidden", str "A", str "B"],
            [(true, [str "A", str "B"])])]
    ∧ ((parse_structures (parse_header (mkParser c8text))).project.udts.map
        (fun p => (dictGet p.2.members (str "A")).map
            (fun m => (m.is_bit, m.parent_word, m.bit_index))))
        = [some (true, some (str "ZZZZZZZZZZHidden"), some 0)]
    ∧ ((parse_structures (parse_header (mkParser c8text))).project.udts.map
        (fun p => (dictGet p.2.members (str "B")).map
            (fun m => (m.is_bit, m.parent_word, m.bit_index))))
        = [some (true, some (str "ZZZZZZZZZZHidden"), some 1)] := by
  refine ⟨?_, fun aliasNm word bit defText => ⟨rfl, rfl, rfl⟩,
    by decide, by decide, by decide⟩
  intro a w b d u h
  have hw : ¬ w = a := fun e => h e.symm
  have hname : (bit_alias_member a w b d).name = a := rfl
  rcases hget : dictGet u.members w with _ | old
  · have hscrut : dictGet (dictInsert u.members (bit_alias_member a w b d).name
        (bit_alias_member a w b d)) w = none := by
      rw [hname, dictGet_insert_ne u.members a w _ h, hget]
    have hm : (bit_alias_step a w b d u).members
        = dictUpdate
            (dictInsert (dictInsert u.members (bit_alias_member a w b d).name
                (bit_alias_member a w b d))
              (UDTMember.mk w (str "SINT") (get_desc d) none true false none
                none [] []).name
              (UDTMember.mk w (str "SINT") (get_desc d) none true false none
                none [] []))
            w (fun m => m.add_child (bit_alias_member a w b d)) := by
      simp only [bit_alias_step, UDT.add_member, hscrut]
    have hph : (UDTMember.mk w (str "SINT") (get_desc d) none true false none
        none [] []).name = w := rfl
    constructor
    · rw [hm, dictGet_update_ne _ w a _ hw, hph,
        dictGet_insert_ne _ w a _ hw, hname]
      exact dictInsert_get_self u.members a _
    · refine ⟨(UDTMember.mk w (str "SINT") (get_desc d) none true false none
          none [] []).add_child (bit_alias_member a w b d), ?_, ?_, ?_⟩
      · rw [hm]
        exact dictGet_update_self _ w _ _ (dictInsert_get_self _ _ _)
      · rw [add_child_children, hname]
        exact dictInsert_get_self _ a _
      · exact (add_child_hidden_flag _ _).trans rfl
  · have hscrut : dictGet (dictInsert u.members (bit_alias_member a w b d).name
        (bit_alias_member a w b d)) w = some old := by
      rw [hname, dictGet_insert_ne u.members a w _ h, hget]
    have hm : (bit_alias_step a w b d u).members
        = dictUpdate
            (dictInsert u.members (bit_alias_member a w b d).name
              (bit_alias_member a w b d))
            w (fun m => m.add_child (bit_alias_member a w b d)) := by
      simp only [bit_alias_step, UDT.add_member, hscrut]
    constructor
    · rw [hm, dictGet_update_ne _ w a _ hw, hname]
      exact dictInsert_get_self u.members a _
    · refine ⟨old.add_child (bit_alias_member a w b d), ?_, ?_, ?_⟩
      · rw [hm]
        exact dictGet_update_self _ w _ _ hscrut
      · rw [add_child_children, hname]
        exact dictInsert_get_self _ a _
      · exact (add_child_hidden_flag _ _).trans rfl

/-- C8 witness: the attachment clause of the amended theorem applied at the
empty type definition with alias A, word W and bit 0 — the placeholder
parent W is created, flagged, and carries the bit member A as its child. -/
theorem C8_bit_alias_attach_witness :
    dictGet (bit_alias_step (str "A") (str "W") 0 [] c8u0).members (str "A")
      = some (bit_alias_member (str "A") (str "W") 0 [])
    ∧ ∃ p, dictGet (bit_alias_step (str "A") (str "W") 0 [] c8u0).members
            (str "W") = some p
        ∧ dictGet p.children (str "A")
          = some (bit_alias_member (str "A") (str "W") 0 [])
        ∧ p.is_hidden_parent = true := by
  have h := C8_bit_alias_attach.1 (str "A") (str "W") 0 [] c8u0 (by decide)
  obtain ⟨p, h1, h2, h3⟩ := h.2
  exact ⟨h.1, p, h1, h2, h3.trans rfl⟩

/-! ## C2: scan progress and resolver divergence -/

/-- Bounds of the capture loop: the returned index never moves backwards and
never passes the end of the remaining lines. -/
theorem captureGo_bounds :
    ∀ (rest : List Str) (depth : Int) (acc : List Str) (j : Nat),
      j ≤ (captureGo rest depth acc j).2 ∧
      (captureGo rest depth acc j).2 ≤ j + rest.length := by
  intro rest
  induction rest with
  | nil => intro depth acc j; simp [captureGo]
  | cons lj t ih =>
    intro depth acc j
    unfold captureGo
    dsimp only
    split
    · simp
    · have h := ih (depth + paren_delta (rstripChar nlChar lj))
        (acc ++ [rstripChar nlChar lj]) (j + 1)
      simp only [List.length_cons]
      omega

/-- C2 amended part: every block capture strictly advances the line index
and stays bounded by the line count, so the structural scan terminates on
every input. -/
theorem C2_capture_progress (lines : List Str) (i : Nat) (h : i < lines.length) :
    i < (capture_block lines i).2 ∧ (capture_block lines i).2 ≤ lines.length := by
  unfold capture_block
  dsimp only
  split
  · omega
  · have hb := captureGo_bounds (lines.drop (i + 1))
      (paren_delta (lines.getD i []))
      [rstripChar nlChar (lines.getD i [])] (i + 1)
    have hd : (lines.drop (i + 1)).length = lines.length - (i + 1) :=
      List.length_drop _ _
    constructor <;> omega

/-- C2 amended witness: capturing a block from line 0 of a two-line input
advances past line 0 and stays within bounds. -/
theorem C2_capture_progress_witness :
    0 < (capture_block [str "P OF L.Q (", str ");"] 0).2 ∧
    (capture_block [str "P OF L.Q (", str ");"] 0).2 ≤ 2 ∧
    0 < ([str "P OF L.Q (", str ");"] : List Str).length := by
  have h := C2_capture_progress [str "P OF L.Q (", str ");"] 0 (by decide)
  exact ⟨h.1, h.2, by decide⟩

/-- One unguarded-recursion step on the circular model: resolving AAA's
path L.Q turns into resolving BBB's path M.P. -/
theorem c2_stepA (n : Nat) :
    find_base_type c2structural.project (n + 1) (str "L.Q") c2aoiA
      = find_base_type c2structural.project n (str "M.P") c2aoiB := rfl

/-- The converse step: resolving BBB's path M.P turns back into resolving
AAA's path L.Q. -/
theorem c2_stepB (n : Nat) :
    find_base_type c2structural.project (n + 1) (str "M.P") c2aoiB
      = find_base_type c2structural.project n (str "L.Q") c2aoiA := rfl

/-- On the circular model the base-type recursion never returns, whatever
fuel it is given: the source recursion runs forever. -/
theorem c2_find_diverges (fuel : Nat) :
    find_base_type c2structural.project fuel (str "L.Q") c2aoiA = none ∧
    find_base_type c2structural.project fuel (str "M.P") c2aoiB = none := by
  induction fuel with
  | zero => exact ⟨rfl, rfl⟩
  | succ n ih => exact ⟨(c2_stepA n).trans ih.2, (c2_stepB n).trans ih.1⟩

/-- A parameter whose dotted path never resolves makes resolve_param
diverge. -/
theorem resolve_param_none_of_find_none (fuel : Nat) (pr : ParserSt)
    (an pn : Str) (aoi : AOI) (param : AOIParameter)
    (h1 : dictGet pr.project.aois an = some aoi)
    (h2 : dictGet aoi.parameters pn = some param)
    (h3 : param.data_type.contains '.' = true)
    (h4 : find_base_type pr.project fuel param.data_type aoi = none) :
    resolve_param fuel pr an pn = none := by
  unfold resolve_param
  rw [h1]
  dsimp only
  rw [h2]
  simp [h3, h4]
  simpa using h3

/-- When the resolver's very first parameter visit diverges, the whole
resolution pass diverges. -/
theorem resolve_nested_head_none (fuel : Nat) (pr : ParserSt) (a0 : Str)
    (rest : List Str) (hkeys : dictKeys pr.project.aois = a0 :: rest)
    (p0 : Str) (prest : List Str)
    (hp : (match dictGet pr.project.aois a0 with
           | some aoi => dictKeys aoi.parameters
           | none => []) = p0 :: prest)
    (hnone : resolve_param fuel pr a0 p0 = none) :
    resolve_nested_types fuel pr = none := by
  unfold resolve_nested_types
  rw [hkeys]
  simp only [List.foldlM, hp, hnone]
  rfl

/-- The first parameter fetched by the resolver on the circular model. -/
def c2paramP : AOIParameter :=
  (dictGet c2aoiA.parameters (str "P")).getD { name := [], data_type := [] }

/-- On the circular model the whole resolution pass diverges at its very
first parameter, whatever the fuel. -/
theorem c2_resolve_none (fuel : Nat) :
    resolve_nested_types fuel c2structural = none := by
  have hA : dictGet c2structural.project.aois (str "AAA") = some c2aoiA := rfl
  have hP : dictGet c2aoiA.parameters (str "P") = some c2paramP := rfl
  have h3 : c2paramP.data_type.contains '.' = true := by decide
  have h4 : find_base_type c2structural.project fuel c2paramP.data_type c2aoiA
      = none := by
    rw [show c2paramP.data_type = str "L.Q" from rfl]
    exact (c2_find_diverges fuel).1
  have hnone := resolve_param_none_of_find_none fuel c2structural
    (str "AAA") (str "P") c2aoiA c2paramP hA hP h3 h4
  exact resolve_nested_head_none fuel c2structural (str "AAA") [str "BBB"] rfl
    (str "P") [] rfl hnone

/-- C2 counterexample: on an input whose two instruction definitions refer
to each other's parameters circularly through local tags, the full parse
does not terminate: the semantic-resolution pass recurses forever (no fuel
suffices), refuting "terminates for every input text". -/
theorem C2_counterexample :
    l5k_parse 1000 c2text = none ∧ (∀ fuel : Nat, l5k_parse fuel c2text = none) := by
  have hall : ∀ fuel : Nat, l5k_parse fuel c2text = none := by
    intro fuel
    show resolve_nested_types fuel
      (parse_structures (parse_header (mkParser c2text))) = none
    exact c2_resolve_none fuel
  exact ⟨hall 1000, hall⟩

/-! ## C5: resolution is not idempotent in general; it is a no-op on
dot-free models -/

/-- C5 counterexample: on the concrete model with A.P OF L.Q, A's local tags
L : B and X : DINT, and B.Q : X.3, the first resolution run rewrites A.P to
the still-dotted path "X.3" (one log entry), and an immediate second run
produces an additional log entry and changes A.P's data_type again, to
"BOOL": resolution is not idempotent. -/
theorem C5_counterexample :
    (resolve_nested_types 10 c5pr).map (fun pr1 =>
       (pr1.corrected_tags_log,
        (dictGet pr1.project.aois (str "A")).bind
          (fun a => (dictGet a.parameters (str "P")).map (fun p => p.data_type))))
      = some ([str "Corrected A.P: from \"L.Q\" to \"X.3\""], some (str "X.3"))
    ∧ ((resolve_nested_types 10 c5pr).bind (resolve_nested_types 10)).map (fun pr2 =>
       (pr2.corrected_tags_log,
        (dictGet pr2.project.aois (str "A")).bind
          (fun a => (dictGet a.parameters (str "P")).map (fun p => p.data_type))))
      = some ([str "Corrected A.P: from \"L.Q\" to \"X.3\"",
               str "Corrected A.P: from \"X.3\" to \"BOOL\""], some (str "BOOL")) := by
  exact ⟨by decide, by decide⟩

/-- A model is dot-free when no instruction parameter's data_type contains a
path separator (the state of a model whose resolution reached base types
everywhere). -/
def projDotFree (proj : L5KProject) : Bool :=
  proj.aois.all (fun p => p.2.parameters.all (fun q => !(q.2.data_type.contains '.')))

/-- A successful lookup returns a value stored in the list. -/
theorem dictGet_some_mem {α : Type} :
    ∀ (d : Dct α) (k : Str) (v : α), dictGet d k = some v → ∃ k', (k', v) ∈ d := by
  intro d
  induction d with
  | nil => intro k v h; simp [dictGet] at h
  | cons p rest ih =>
    intro k v h
    obtain ⟨k', v'⟩ := p
    by_cases hk : (k' == k) = true
    · refine ⟨k', ?_⟩
      simp [dictGet, hk] at h
      simp [h]
    · simp [dictGet, hk] at h
      obtain ⟨k'', hmem⟩ := ih k v h
      exact ⟨k'', List.mem_cons_of_mem _ hmem⟩

/-- On a dot-free model a single parameter visit changes nothing. -/
theorem resolve_param_id (fuel : Nat) (pr : ParserSt) (an pn : Str)
    (h : projDotFree pr.project = true) :
    resolve_param fuel pr an pn = some pr := by
  unfold resolve_param
  cases h1 : dictGet pr.project.aois an with
  | none => rfl
  | some aoi =>
    dsimp only
    cases h2 : dictGet aoi.parameters pn with
    | none => rfl
    | some param =>
      dsimp only
      obtain ⟨ka, hmema⟩ := dictGet_some_mem _ _ _ h1
      have hall := (List.all_eq_true.mp h) ⟨ka, aoi⟩ hmema
      obtain ⟨kp, hmemp⟩ := dictGet_some_mem _ _ _ h2
      have hp := (List.all_eq_true.mp hall) ⟨kp, param⟩ hmemp
      have hfalse : param.data_type.contains '.' = false := by
        simpa using hp
      simp [hfalse]
      intro hmem'
      exact absurd hmem' (by simpa using hfalse)

/-- On a dot-free model the inner parameter loop returns the state
unchanged. -/
theorem resolve_params_id (fuel : Nat) (pr : ParserSt) (an : Str)
    (h : projDotFree pr.project = true) :
    ∀ pnames : List Str,
      pnames.foldlM (fun c pname => resolve_param fuel c an pname) pr = some pr := by
  intro pnames
  induction pnames with
  | nil => rfl
  | cons p rest ih =>
    simp only [List.foldlM, resolve_param_id fuel pr an p h]
    exact ih

/-- C5 amended: semantic resolution is a no-op — no data_type or definition
changes and no correction-log entries — on every model in which all
parameter data types are already dot-free; in particular, a second
resolution run adds nothing whenever the first run rewrote every dotted
parameter down to a dot-free base type. (The unamended claim fails because
a first run may rewrite a parameter to a still-dotted path, which a second
run corrects further.) -/
theorem C5_resolution_noop_on_dotfree (fuel : Nat) (pr : ParserSt)
    (h : projDotFree pr.project = true) :
    resolve_nested_types fuel pr = some pr := by
  unfold resolve_nested_types
  generalize dictKeys pr.project.aois = keys
  induction keys with
  | nil => rfl
  | cons a rest ih =>
    simp only [List.foldlM]
    rw [resolve_params_id fuel pr a h]
    exact ih

/-- C5 witness: on a one-instruction model whose single parameter already
has the dot-free type DINT, resolution returns the model unchanged. -/
theorem C5_resolution_noop_witness :
    projDotFree c3pr.project = true ∧
    resolve_nested_types 5 c3pr = some c3pr := by
  exact ⟨by decide, C5_resolution_noop_on_dotfree 5 c3pr (by decide)⟩

/-! ## C3: general inclusion of touched instruction definitions -/

/-- A list is a prefix of itself extended on the right. -/
theorem isPrefixOf_append_self (x t : Str) : x.isPrefixOf (x ++ t) = true := by
  simp [List.isPrefixOf_iff_prefix]

/-- A prefix match is a substring match. -/
theorem containsSubstr_of_isPrefixOf (s pat : Str)
    (h : pat.isPrefixOf s = true) : containsSubstr s pat = true := by
  cases s with
  | nil =>
    cases pat with
    | nil => rfl
    | cons p ps => simp [List.isPrefixOf] at h
  | cons c cs => simp [containsSubstr, h]

/-- Substring containment survives prepending. -/
theorem containsSubstr_append_left :
    ∀ (s t pat : Str), containsSubstr t pat = true →
      containsSubstr (s ++ t) pat = true := by
  intro s
  induction s with
  | nil => intro t pat h; simpa using h
  | cons c cs ih =>
    intro t pat h
    simp [containsSubstr]
    right
    have := ih t pat h
    simpa using this

/-- A prefix of a list stays a prefix after extending the list. -/
theorem isPrefixOf_extend (pat s t : Str) (h : pat.isPrefixOf s = true) :
    pat.isPrefixOf (s ++ t) = true := by
  rw [List.isPrefixOf_iff_prefix] at h ⊢
  exact h.trans (List.prefix_append s t)

/-- Substring containment survives appending. -/
theorem containsSubstr_append_right :
    ∀ (s t pat : Str), containsSubstr s pat = true →
      containsSubstr (s ++ t) pat = true := by
  intro s
  induction s with
  | nil =>
    intro t pat h
    simp [containsSubstr] at h
    subst h
    cases t with
    | nil => rfl
    | cons c cs => simp [containsSubstr, List.isPrefixOf]
  | cons c cs ih =>
    intro t pat h
    simp [containsSubstr] at h ⊢
    cases h with
    | inl hp => exact Or.inl (by simpa using isPrefixOf_extend pat (c :: cs) t (by simpa using hp))
    | inr hc => exact Or.inr (by simpa using ih t pat (by simpa using hc))

/-- Unfolding of joinNL on a cons. -/
theorem joinNL_cons (a : Str) (rest : List Str) :
    joinNL (a :: rest) = a ++ (match rest with
      | [] => []
      | _ :: _ => nlChar :: joinNL rest) := by
  cases rest with
  | nil => simp [joinNL, List.intersperse]
  | cons b l => simp [joinNL, List.intersperse]

/-- A pattern contained in some line of a list is contained in the
newline-join of the list. -/
theorem containsSubstr_joinNL :
    ∀ (out : List Str) (line pat : Str), line ∈ out →
      containsSubstr line pat = true → containsSubstr (joinNL out) pat = true := by
  intro out
  induction out with
  | nil => intro line pat h; simp at h
  | cons a rest ih =>
    intro line pat hmem hc
    rw [joinNL_cons]
    rcases List.mem_cons.mp hmem with h | h
    · subst h
      exact containsSubstr_append_right _ _ _ hc
    · cases rest with
      | nil => simp at h
      | cons b l =>
        apply containsSubstr_append_left
        show containsSubstr (nlChar :: joinNL (b :: l)) pat = true
        have hr : containsSubstr (joinNL (b :: l)) pat = true := ih line pat h hc
        have := containsSubstr_append_left [nlChar] (joinNL (b :: l)) pat hr
        simpa using this

/-- A fold whose step only appends on the right extends its accumulator. -/
theorem foldl_append_ext {β : Type} (g : List Str → β → List Str)
    (hg : ∀ acc x, ∃ e, g acc x = acc ++ e) :
    ∀ (l : List β) (acc : List Str), ∃ e, List.foldl g acc l = acc ++ e := by
  intro l
  induction l with
  | nil => intro acc; exact ⟨[], by simp⟩
  | cons x t ih =>
    intro acc
    obtain ⟨e1, he1⟩ := hg acc x
    obtain ⟨e2, he2⟩ := ih (g acc x)
    exact ⟨e1 ++ e2, by rw [List.foldl_cons, he2, he1, List.append_assoc]⟩

/-- Pair-accumulator variant: the first component only ever grows by
appends. -/
theorem foldl_append_ext_fst {β : Type} (g : List Str × Nat → β → List Str × Nat)
    (hg : ∀ acc x, ∃ e, (g acc x).1 = acc.1 ++ e) :
    ∀ (l : List β) (acc : List Str × Nat), ∃ e, (List.foldl g acc l).1 = acc.1 ++ e := by
  intro l
  induction l with
  | nil => intro acc; exact ⟨[], by simp⟩
  | cons x t ih =>
    intro acc
    obtain ⟨e1, he1⟩ := hg acc x
    obtain ⟨e2, he2⟩ := ih (g acc x)
    exact ⟨e1 ++ e2, by rw [List.foldl_cons, he2, he1, List.append_assoc]⟩

/-- The UDT step only appends. -/
theorem wlUDTStep_ext (sel : SelectionDict) (acc : List Str) (p : Str × UDT) :
    ∃ e, wlUDTStep sel acc p = acc ++ e := by
  unfold wlUDTStep
  split
  · exact ⟨_, by rw [List.append_assoc]⟩
  · exact ⟨[], by simp⟩

/-- Extending an accumulator extension by a further append. -/
theorem exists_suffix (acc X : List Str) (h : ∃ b, X = acc ++ b) (c : List Str) :
    ∃ e, X ++ c = acc ++ e := by
  obtain ⟨b, hb⟩ := h
  exact ⟨b ++ c, by rw [hb, List.append_assoc]⟩

/-- wlParamStep only appends. -/
theorem wlParamStep_ext (sp : List Str) (a : List Str) (q : Str × AOIParameter) :
    ∃ e, wlParamStep sp a q = a ++ e := by
  unfold wlParamStep
  split
  · exact ⟨_, rfl⟩
  · exact ⟨[], by simp⟩

/-- wlLocalStep only appends to its line component. -/
theorem wlLocalStep_ext (sl : List Str) (ae : List Str × Nat) (q : Str × AOILocalTag) :
    ∃ e, (wlLocalStep sl ae q).1 = ae.1 ++ e := by
  unfold wlLocalStep
  split
  · exact ⟨_, rfl⟩
  · exact ⟨[], by simp⟩

/-- wlTagEmit only appends. -/
theorem wlTagEmit_ext (st : List Str) (level : Nat) (a : List Str) (q : Str × Tag) :
    ∃ e, wlTagEmit st level a q = a ++ e := by
  unfold wlTagEmit
  split
  · exact ⟨_, rfl⟩
  · exact ⟨[], by simp⟩

/-- The AOI step only appends. -/
theorem wlAOIStep_ext (sel : SelectionDict) (acc : List Str) (p : Str × AOI) :
    ∃ e, wlAOIStep sel acc p = acc ++ e := by
  unfold wlAOIStep
  dsimp only
  split
  · exact ⟨[], by simp⟩
  · obtain ⟨e1, he1⟩ := foldl_append_ext (wlParamStep (selGet sel.aoi_parameters p.1))
      (wlParamStep_ext _) p.2.parameters
      (acc ++ [wlAOIHeader p.1 p.2] ++ [repStr wlIndent 2 ++ str "PARAMETERS"])
    split
    · rw [he1]
      obtain ⟨e2, he2⟩ := foldl_append_ext_fst (wlLocalStep (selGet sel.aoi_localtags p.1))
        (wlLocalStep_ext _) p.2.localtags
        (acc ++ [wlAOIHeader p.1 p.2] ++ [repStr wlIndent 2 ++ str "PARAMETERS"] ++ e1
          ++ [repStr wlIndent 2 ++ str "END_PARAMETERS", []]
          ++ [repStr wlIndent 2 ++ str "LOCAL_TAGS"], 0)
      rw [he2]
      split
      all_goals
        repeat first
          | exact ⟨_, rfl⟩
          | exact ⟨[], (List.append_nil _).symm⟩
          | apply exists_suffix
    · obtain ⟨e2, he2⟩ := foldl_append_ext_fst (wlLocalStep (selGet sel.aoi_localtags p.1))
        (wlLocalStep_ext _) p.2.localtags
        (acc ++ [wlAOIHeader p.1 p.2] ++ [repStr wlIndent 2 ++ str "LOCAL_TAGS"], 0)
      rw [he2]
      split
      all_goals
        repeat first
          | exact ⟨_, rfl⟩
          | exact ⟨[], (List.append_nil _).symm⟩
          | apply exists_suffix

/-- The program step only appends. -/
theorem wlProgStep_ext (sel : SelectionDict) (acc : List Str) (p : Str × Program) :
    ∃ e, wlProgStep sel acc p = acc ++ e := by
  unfold wlProgStep
  dsimp only
  split
  · exact ⟨[], by simp⟩
  · obtain ⟨e1, he1⟩ := foldl_append_ext (wlTagEmit (selGet sel.program_tags p.1) 3)
      (wlTagEmit_ext _ 3) p.2.tags
      (acc ++ [render_program_header_line p.2 wlIndent, repStr wlIndent 2 ++ str "TAG"])
    rw [he1]
    repeat first
      | exact ⟨_, rfl⟩
      | exact ⟨[], (List.append_nil _).symm⟩
      | apply exists_suffix

/-- parse_header never touches the instruction-definition map. -/
theorem parse_header_preserves_aois (pr : ParserSt) :
    (parse_header pr).project.aois = pr.project.aois := by
  unfold parse_header
  dsimp only
  split
  · rfl
  · rfl

/-- The export-time header recovery never touches the instruction map. -/
theorem ensure_hdr_preserves_aois (pr : ParserSt) :
    (ensure_header_for_export pr).project.aois = pr.project.aois := by
  unfold ensure_header_for_export
  split
  · rfl
  · split
    · split
      · rfl
      · exact parse_header_preserves_aois pr
    · exact parse_header_preserves_aois pr

/-- The controller-header recovery never touches the instruction map. -/
theorem ensure_ctrl_preserves_aois (pr : ParserSt) :
    (ensure_controller_header pr).project.aois = pr.project.aois := by
  unfold ensure_controller_header
  split
  · rfl
  · split
    · rfl
    · rfl

/-- Both rendered forms of the AOI header line contain the marker text
followed by the instruction's name. -/
theorem wlAOIHeader_contains (name : Str) (aoi : AOI) :
    containsSubstr (wlAOIHeader name aoi)
      (str "ADD_ON_INSTRUCTION_DEFINITION " ++ name) = true := by
  unfold wlAOIHeader
  split
  · apply containsSubstr_append_left
    apply containsSubstr_of_isPrefixOf
    rw [← List.append_assoc]
    exact isPrefixOf_append_self _ _
  · apply containsSubstr_append_left
    apply containsSubstr_of_isPrefixOf
    rw [← List.append_assoc]
    exact isPrefixOf_append_self _ _

/-- Membership in the accumulator survives an append-only fold. -/
theorem mem_foldl_ext {β : Type} (g : List Str → β → List Str)
    (hg : ∀ acc x, ∃ e, g acc x = acc ++ e) (l : List β) (acc : List Str)
    (line : Str) (h : line ∈ acc) : line ∈ List.foldl g acc l := by
  obtain ⟨e, he⟩ := foldl_append_ext g hg l acc
  rw [he]
  exact List.mem_append_left _ h

/-- Whenever any selection entry touches an instruction definition, its
step emits the instruction's header line. -/
theorem wlAOIStep_emits_header (sel : SelectionDict) (acc : List Str)
    (p : Str × AOI)
    (htouch : (sel.aois.contains p.1
            || !(selGet sel.aoi_parameters p.1).isEmpty
            || !(selGet sel.aoi_localtags p.1).isEmpty) = true) :
    wlAOIHeader p.1 p.2 ∈ wlAOIStep sel acc p := by
  have hskip : (!(sel.aois.contains p.1)
      && (selGet sel.aoi_parameters p.1).isEmpty
      && (selGet sel.aoi_localtags p.1).isEmpty) = false := by
    cases hA : sel.aois.contains p.1 <;>
      cases hB : (selGet sel.aoi_parameters p.1).isEmpty <;>
        cases hC : (selGet sel.aoi_localtags p.1).isEmpty <;>
          simp_all
  unfold wlAOIStep
  dsimp only
  rw [hskip]
  simp only [Bool.false_eq_true, if_false]
  obtain ⟨e1, he1⟩ := foldl_append_ext (wlParamStep (selGet sel.aoi_parameters p.1))
    (wlParamStep_ext _) p.2.parameters
    (acc ++ [wlAOIHeader p.1 p.2] ++ [repStr wlIndent 2 ++ str "PARAMETERS"])
  split
  · rw [he1]
    obtain ⟨e2, he2⟩ := foldl_append_ext_fst (wlLocalStep (selGet sel.aoi_localtags p.1))
      (wlLocalStep_ext _) p.2.localtags
      (acc ++ [wlAOIHeader p.1 p.2] ++ [repStr wlIndent 2 ++ str "PARAMETERS"] ++ e1
        ++ [repStr wlIndent 2 ++ str "END_PARAMETERS", []]
        ++ [repStr wlIndent 2 ++ str "LOCAL_TAGS"], 0)
    rw [he2]
    split
    · simp
    · simp
  · obtain ⟨e2, he2⟩ := foldl_append_ext_fst (wlLocalStep (selGet sel.aoi_localtags p.1))
      (wlLocalStep_ext _) p.2.localtags
      (acc ++ [wlAOIHeader p.1 p.2] ++ [repStr wlIndent 2 ++ str "LOCAL_TAGS"], 0)
    rw [he2]
    split
    · simp
    · simp

/-- C3 amended: the whitelist export includes an instruction definition
whenever its own selection entry or its selected-member sets are non-empty
(its header line appears in the output); type definitions, by contrast, are
rendered only when their name is in the container selection set (see the
counterexample for a member-selected but unrendered type definition). -/
theorem C3_touched_aoi_included (pr0 : ParserSt) (sel : SelectionDict)
    (name : Str) (aoi : AOI)
    (hmem : (name, aoi) ∈ pr0.project.aois)
    (htouch : (sel.aois.contains name
            || !(selGet sel.aoi_parameters name).isEmpty
            || !(selGet sel.aoi_localtags name).isEmpty) = true) :
    containsSubstr (export_whitelist pr0 sel)
      (str "ADD_ON_INSTRUCTION_DEFINITION " ++ name) = true := by
  unfold export_whitelist
  dsimp only
  have haois : (ensure_controller_header (ensure_header_for_export pr0)).project.aois
      = pr0.project.aois := by
    rw [ensure_ctrl_preserves_aois, ensure_hdr_preserves_aois]
  rw [haois]
  obtain ⟨s, t, hst⟩ := List.append_of_mem hmem
  rw [hst]
  apply containsSubstr_joinNL _ (wlAOIHeader name aoi) _ _ (wlAOIHeader_contains name aoi)
  apply List.mem_append_left
  apply mem_foldl_ext _ (wlProgStep_ext sel)
  split
  · apply List.mem_append_left
    apply mem_foldl_ext _ (wlTagEmit_ext sel.tags 2)
    apply List.mem_append_left
    rw [List.foldl_append, List.foldl_cons]
    apply mem_foldl_ext _ (wlAOIStep_ext sel)
    exact wlAOIStep_emits_header sel _ (name, aoi) htouch
  · rw [List.foldl_append, List.foldl_cons]
    apply mem_foldl_ext _ (wlAOIStep_ext sel)
    exact wlAOIStep_emits_header sel _ (name, aoi) htouch

/-- C3 amended witness: AOIX, touched only through its selected parameter
PX, appears in the export of the concrete model. -/
theorem C3_touched_aoi_included_witness :
    (str "AOIX", c3aoi) ∈ c3pr.project.aois ∧
    containsSubstr (export_whitelist c3pr c3sel)
      (str "ADD_ON_INSTRUCTION_DEFINITION " ++ str "AOIX") = true := by
  refine ⟨by decide, ?_⟩
  exact C3_touched_aoi_included c3pr c3sel (str "AOIX") c3aoi (by decide) (by decide)
